import Mathlib

/-!
Verification of the mk task-runner core: a shallow embedding of the task
execution engine (shell invocation building, execution-stack cycle guard,
context derivation, precondition gating, command runners, sequential and
parallel command orchestration) together with theorems about its behaviour.

External effects (process spawning, file reads, container runtimes, git)
are abstracted by a `World` oracle; every spawned process is recorded as an
event so that theorems can speak about what was and was not executed.
-/

namespace Mk

/-- Association-list environment map. Later entries override earlier ones,
modelling repeated hash-map insertion. -/
abbrev EnvList := List (String × String)

/-- Lookup in an `EnvList`: the last binding for the key wins, matching
hash-map insert-overwrite semantics. -/
def lookupEnv (l : EnvList) (k : String) : Option String :=
  (l.reverse.find? (fun p => p.1 == k)).map (fun p => p.2)

/-- The POSIX shell names recognised by `ShellArgs::shell_args`. -/
def posix_shell : List String := ["sh", "bash", "zsh", "fish"]

/-- `ShellArgs` from `schema/shell.rs`: a shell command plus optional flags. -/
structure ShellArgs where
  command : String
  args : Option (List String)
deriving Repr, DecidableEq

/-- `Shell` from `schema/shell.rs`: a bare command name or command+args. -/
inductive Shell where
  | str (command : String)
  | shell (args : ShellArgs)
deriving Repr, DecidableEq

/-- `ShellArgs::shell_args`: returns the declared args, appending a trailing
`-c` when the command is a known POSIX shell and no `-c` is already present. -/
def ShellArgs.shell_args (sa : ShellArgs) : List String :=
  let args := sa.args.getD []
  if ¬ posix_shell.contains sa.command then args
  else if args.any (fun a => a == "-c") then args
  else args ++ ["-c"]

/-- `Shell::cmd`: the invocable program name. -/
def Shell.cmd : Shell → String
  | .str c => c
  | .shell sa => sa.command

/-- `Shell::args`: the built flag/argument list. -/
def Shell.argsList : Shell → List String
  | .str c => ShellArgs.shell_args ⟨c, none⟩
  | .shell sa => sa.shell_args

/-- A process descriptor: program, arguments, explicitly injected
environment entries and optional working directory. -/
structure Proc where
  prog : String
  args : List String
  env : EnvList
  cwd : Option String
deriving Repr, DecidableEq

/-- `Shell::proc`: a ready-to-extend process descriptor. -/
def Shell.proc (s : Shell) : Proc :=
  { prog := s.cmd, args := s.argsList, env := [], cwd := none }

/-- `Command::arg`: append one argument. -/
def Proc.arg (p : Proc) (a : String) : Proc :=
  { p with args := p.args ++ [a] }

/-- `Command::env` over a whole map: record injected environment entries. -/
def Proc.withEnv (p : Proc) (e : EnvList) : Proc :=
  { p with env := e }

/-- `Command::current_dir`. -/
def Proc.withCwd (p : Proc) (d : String) : Proc :=
  { p with cwd := some d }

/-- Which code site spawned a process; used to state that a given phase did
or did not execute anything. -/
inductive Site where
  | capture
  | precond
  | test
  | localRun
  | rawRun
  | containerRun
  | containerBuild
deriving Repr, DecidableEq

/-- An observable effect: a process spawn at a given site. -/
inductive Event where
  | spawn (site : Site) (p : Proc)
deriving Repr, DecidableEq

/-- The site of an event. -/
def Event.site : Event → Site
  | .spawn s _ => s

/-- The external world: process exit codes and captured output, env-file
contents (as lines), container-runtime resolution, filesystem probes and
git/clock data for label resolution. -/
structure World where
  exit : Proc → Nat
  stdoutLines : Proc → List String
  readFile : String → Option (List String)
  whichRuntime : Option String
  pathExists : String → Bool
  nowStamp : String
  gitRevision : Option String
  gitRemoteOrigin : Option String
  currentDir : String

deriving instance DecidableEq for Except

/-- The error taxonomy, one constructor per distinct failure produced by the
engine. Constructors carry the data interpolated into the message. -/
inductive RunErr where
  | outOfFuel
  | panicAssert (m : String)
  | taskNotFound
  | circularDependency (name : String)
  | precondFailed (m : String)
  | commandFailed (c : String)
  | testFailed (t : String)
  | containerBuildFailed
  | runtimeNotFound
  | buildFileNotFound
  | envFileRead (f : String)
  | stdoutOpenFailed
  | stdoutReadFailed
  | invalidParallelInteractive
  | invalidParallelNonLocal
  | parallelFailed (agg : String)
  | templateEnvNotFound
deriving Repr, DecidableEq

/-- The user-visible message of an error, matching the source format strings. -/
def RunErr.render : RunErr → String
  | .outOfFuel => "out of fuel"
  | .panicAssert m => m
  | .taskNotFound => "Task not found"
  | .circularDependency n => "Circular dependency detected - " ++ n
  | .precondFailed m => "Precondition failed - " ++ m
  | .commandFailed c => "Command failed - " ++ c
  | .testFailed t => "Command test failed - " ++ t
  | .containerBuildFailed => "Container build failed"
  | .runtimeNotFound => "Failed to find docker or podman"
  | .buildFileNotFound => "Failed to find Dockerfile or Containerfile in context"
  | .envFileRead f => "Failed to read env file - " ++ f
  | .stdoutOpenFailed => "Failed to open stdout"
  | .stdoutReadFailed => "Failed to read stdout"
  | .invalidParallelInteractive => "Interactive local commands cannot be run in parallel"
  | .invalidParallelNonLocal => "Parallel execution is only supported for non-interactive local commands"
  | .parallelFailed agg => agg
  | .templateEnvNotFound => "Failed to find environment variable"

/-- `defaults::default_shell`, wrapped as a `Shell` the way
`TaskContext::shell` uses it. -/
def default_shell : Shell := .str "sh"

/-- `defaults::default_verbose`. -/
def default_verbose : Bool := true

/-- `defaults::default_ignore_errors`. -/
def default_ignore_errors : Bool := false

/-- `TaskContext` from `schema/task_context.rs`. The task catalog is passed
separately to the interpreter and the execution stack is threaded as state,
reflecting that both are shared handles; `env_vars` and the overrides are
owned per context instance. -/
structure TaskContext where
  env_vars : EnvList
  shell : Option Shell := none
  ignore_errors : Option Bool := none
  verbose : Option Bool := none
  is_nested : Bool := false
deriving Repr, DecidableEq

/-- `TaskContext::shell`: the local override if set, else the default. -/
def TaskContext.shellEff (c : TaskContext) : Shell :=
  c.shell.getD default_shell

/-- `TaskContext::ignore_errors`. -/
def TaskContext.ignoreErrorsEff (c : TaskContext) : Bool :=
  c.ignore_errors.getD default_ignore_errors

/-- `TaskContext::verbose`. -/
def TaskContext.verboseEff (c : TaskContext) : Bool :=
  c.verbose.getD default_verbose

/-- `TaskContext::from_context`: nested copy; `env_vars` and the overrides
are cloned, `is_nested` is set. -/
def TaskContext.from_context (c : TaskContext) : TaskContext :=
  { env_vars := c.env_vars
    shell := c.shell
    ignore_errors := c.ignore_errors
    verbose := c.verbose
    is_nested := true }

/-- `TaskContext::from_context_with_args`: nested copy with the
ignore-errors and verbose overrides explicitly set. -/
def TaskContext.from_context_with_args (c : TaskContext) (ie v : Bool) : TaskContext :=
  { env_vars := c.env_vars
    shell := c.shell
    ignore_errors := some ie
    verbose := some v
    is_nested := true }

/-- `TaskContext::extend_env_vars`: merge entries into the owned map,
later writes winning on key collision. -/
def TaskContext.extend_env_vars (c : TaskContext) (l : EnvList) : TaskContext :=
  { c with env_vars := c.env_vars ++ l }

/-- `TaskContext::set_shell`. -/
def TaskContext.set_shell (c : TaskContext) (s : Shell) : TaskContext :=
  { c with shell := some s }

/-- `TaskContext::set_ignore_errors`. -/
def TaskContext.set_ignore_errors (c : TaskContext) (b : Bool) : TaskContext :=
  { c with ignore_errors := some b }

/-- `TaskContext::set_verbose`. -/
def TaskContext.set_verbose (c : TaskContext) (b : Bool) : TaskContext :=
  { c with verbose := some b }

/-- `Precondition` from `schema/precondition.rs`; note the absence of an
ignore-errors field. -/
structure Precondition where
  command : String
  message : Option String := none
  shell : Option Shell := none
  work_dir : Option String := none
  verbose : Option Bool := none
deriving Repr, DecidableEq

/-- `LocalRun` from `schema/command/local_run.rs`. -/
structure LocalRun where
  command : String
  shell : Option Shell := none
  test : Option String := none
  work_dir : Option String := none
  interactive : Option Bool := none
  ignore_errors : Option Bool := none
  verbose : Option Bool := none
deriving Repr, DecidableEq

/-- `ContainerRun` from `schema/command/container_run.rs`; `ignore_errors`
is a plain bool with serde default `false`, not an optional override. -/
structure ContainerRun where
  container_command : List String
  image : String
  mounted_paths : List String := []
  ignore_errors : Bool := false
  verbose : Bool := true
deriving Repr, DecidableEq

/-- `ContainerBuildArgs` from `schema/command/container_build.rs`. -/
structure ContainerBuildArgs where
  image_name : String
  context : String
  containerfile : Option String := none
  tags : Option (List String) := none
  build_args : Option (List String) := none
  labels : Option (List String) := none
  sbom : Bool := false
  no_cache : Bool := false
  force_rm : Bool := false
deriving Repr, DecidableEq

/-- `ContainerBuild` from `schema/command/container_build.rs`. -/
structure ContainerBuild where
  container_build : ContainerBuildArgs
  verbose : Option Bool := none
deriving Repr, DecidableEq

/-- `TaskRun` from `schema/command/task_run.rs`. -/
structure TaskRun where
  task : String
  ignore_errors : Option Bool := none
  verbose : Option Bool := none
deriving Repr, DecidableEq

/-- `CommandRunner` from `schema/command/mod.rs`. -/
inductive CommandRunner where
  | containerBuild (cb : ContainerBuild)
  | containerRun (cr : ContainerRun)
  | localRun (lr : LocalRun)
  | taskRun (tr : TaskRun)
  | commandRun (c : String)
deriving Repr, DecidableEq

/-- `TaskDependency` from `schema/task_dependency.rs`: a bare name or a
structured `TaskDependencyArgs { name }`; both execute identically. -/
inductive TaskDependency where
  | str (name : String)
  | args (name : String)
deriving Repr, DecidableEq

/-- The referenced task name of a dependency. -/
def TaskDependency.name : TaskDependency → String
  | .str n => n
  | .args n => n

/-- `TaskArgs` from `schema/task.rs`. `environment` is kept as a list in
declaration order to model map iteration. -/
structure TaskArgs where
  commands : List CommandRunner
  preconditions : List Precondition := []
  depends_on : List TaskDependency := []
  labels : EnvList := []
  description : String := ""
  environment : EnvList := []
  env_file : List String := []
  shell : Option Shell := none
  parallel : Option Bool := none
  ignore_errors : Option Bool := none
  verbose : Option Bool := none
deriving Repr, DecidableEq

/-- `Task`: a bare command string or a structured task. -/
inductive Task where
  | str (s : String)
  | task (t : TaskArgs)
deriving Repr, DecidableEq

/-- The task catalog (`TaskRoot::tasks`), as an association list with the
first binding for a name authoritative. -/
abbrev Catalog := List (String × Task)

/-- Catalog lookup (`task_root.tasks.get`). -/
def lookupTask (cat : Catalog) (n : String) : Option Task :=
  (cat.find? (fun p => p.1 == n)).map (fun p => p.2)

/-- Helper for Rust's `trim_start_matches`: repeatedly drop a leading
pattern occurrence; the fuel is the list length, always sufficient. -/
def dropRepAux (pat : List Char) : Nat → List Char → List Char
  | 0, l => l
  | n + 1, l =>
      if pat.isPrefixOf l && !pat.isEmpty then dropRepAux pat n (l.drop pat.length)
      else l

/-- `str::trim_start_matches`: strip every leading occurrence of `pat`. -/
def trimStartMatches (pat s : String) : String :=
  ⟨dropRepAux pat.data s.data.length s.data⟩

/-- `str::trim_end_matches`: strip every trailing occurrence of `pat`. -/
def trimEndMatches (pat s : String) : String :=
  ⟨(dropRepAux pat.data.reverse s.data.length s.data.reverse).reverse⟩

/-- `str::starts_with`, computed structurally on the character list. -/
def strStarts (s pat : String) : Bool :=
  pat.data.isPrefixOf s.data

/-- `str::ends_with`, computed structurally on the character list. -/
def strEnds (s pat : String) : Bool :=
  pat.data.reverse.isPrefixOf s.data.reverse

/-- `str::trim`, computed structurally: strip leading and trailing
whitespace characters. -/
def trimChars (s : String) : String :=
  ⟨((s.data.dropWhile Char.isWhitespace).reverse.dropWhile Char.isWhitespace).reverse⟩

/-- `schema::is_shell_command`: does the value match `^\$\(.+\)$`
(dot excludes newline, the inner part must be non-empty)? -/
def is_shell_command (v : String) : Bool :=
  let mid := (v.data.drop 2).dropLast
  strStarts v "$(" && strEnds v ")" && !mid.isEmpty && !mid.contains '\n'

/-- `schema::is_template_command`: does the value match the
dollar-double-brace template pattern with a non-empty inner part? -/
def is_template_command (v : String) : Bool :=
  let mid := ((v.data.drop 3).dropLast).dropLast
  strStarts v "$\x7b\x7b" && strEnds v "\x7d\x7d" && !mid.isEmpty && !mid.contains '\n'

/-- Split a character list at its first `=`. -/
def splitCharsAtEq : List Char → Option (List Char × List Char)
  | [] => none
  | c :: cs =>
    if c = '=' then some ([], cs)
    else
      match splitCharsAtEq cs with
      | none => none
      | some (a, b) => some (c :: a, b)

/-- `str::split_once('=')`: the part before the first `=` and the part
after it, or nothing when no `=` occurs. -/
def splitOnceEq (line : String) : Option (String × String) :=
  (splitCharsAtEq line.data).map (fun ab => (⟨ab.1⟩, ⟨ab.2⟩))

/-- The `run_shell_command!` macro: spawn the inner command of a
substitution value and capture the first stdout line. With captured output
the first line is required (`Failed to read stdout` otherwise); without
capture the child has no stdout handle (`Failed to open stdout`). -/
def run_shell_command (W : World) (value : String) (base : Proc) (verbose : Bool) :
    Except RunErr String × List Event :=
  let argStr := trimEndMatches ")" (trimStartMatches "$(" value)
  let p := base.arg argStr
  if verbose then
    match (W.stdoutLines p).head? with
    | none => (.error .stdoutReadFailed, [.spawn .capture p])
    | some line => (.ok line, [.spawn .capture p])
  else (.error .stdoutOpenFailed, [.spawn .capture p])

/-- The `get_template_command_value!` macro: resolve a template value,
looking `env.`-headed keys up in the context environment. -/
def get_template_command_value (ctx : TaskContext) (v : String) : Except RunErr String :=
  let value := trimChars (trimEndMatches "\x7d\x7d" (trimStartMatches "$\x7b\x7b" v))
  if strStarts value "env." then
    match lookupEnv ctx.env_vars (trimStartMatches "env." value) with
    | none => .error .templateEnvNotFound
    | some s => .ok s
  else .ok value

/-- The process from which `TaskArgs::get_env_value` captures a
substitution: the task's shell if declared, else the context shell. -/
def TaskArgs.captureProc (t : TaskArgs) (ctx : TaskContext) : Proc :=
  (t.shell.getD ctx.shellEff).proc

/-- `TaskArgs::get_env_value`: shell-substitution values are captured from
the spawned command, everything else passes through literally. The verbosity
consulted is the task's own (`TaskArgs::verbose`). -/
def TaskArgs.get_env_value (t : TaskArgs) (W : World) (ctx : TaskContext) (v : String) :
    Except RunErr String × List Event :=
  if is_shell_command v then
    run_shell_command W v (t.captureProc ctx) (t.verbose.getD default_verbose)
  else (.ok v, [])

/-- The loop body of `TaskArgs::load_env`: resolve each declared
environment entry in order, stopping at the first failure. -/
def loadEnvGo (t : TaskArgs) (W : World) (ctx : TaskContext) :
    List (String × String) → Except RunErr EnvList × List Event
  | [] => (.ok [], [])
  | (k, v) :: rest =>
    match t.get_env_value W ctx v with
    | (.error e, tr) => (.error e, tr)
    | (.ok s, tr) =>
      match loadEnvGo t W ctx rest with
      | (.error e, tr2) => (.error e, tr ++ tr2)
      | (.ok l, tr2) => (.ok ((k, s) :: l), tr ++ tr2)

/-- `TaskArgs::load_env`. -/
def TaskArgs.load_env (t : TaskArgs) (W : World) (ctx : TaskContext) :
    Except RunErr EnvList × List Event :=
  loadEnvGo t W ctx t.environment

/-- Parse env-file lines: `KEY=VALUE` split at the first `=`, both sides
trimmed; lines without `=` are skipped. -/
def parseEnvLines (ls : List String) : EnvList :=
  ls.filterMap (fun line => (splitOnceEq line).map (fun kv => (trimChars kv.1, trimChars kv.2)))

/-- The loop body of `TaskArgs::load_env_file`: read each file, failing on
a missing file; entries of later files override earlier ones. -/
def loadEnvFileGo (W : World) : List String → Except RunErr EnvList
  | [] => .ok []
  | f :: rest =>
    match W.readFile f with
    | none => .error (.envFileRead f)
    | some ls =>
      match loadEnvFileGo W rest with
      | .error e => .error e
      | .ok l => .ok (parseEnvLines ls ++ l)

/-- `TaskArgs::load_env_file`. -/
def TaskArgs.load_env_file (t : TaskArgs) (W : World) : Except RunErr EnvList :=
  loadEnvFileGo W t.env_file

/-- The process a precondition spawns: its shell (or the context's), the
command as trailing argument, optional working directory, context
environment injected. -/
def Precondition.proc (p : Precondition) (ctx : TaskContext) : Proc :=
  let p0 := ((p.shell.getD ctx.shellEff).proc).arg p.command
  let p1 := match p.work_dir with
    | some d => p0.withCwd d
    | none => p0
  p1.withEnv ctx.env_vars

/-- `Precondition::execute`: spawn, wait; a non-zero exit is always fatal
(there is no ignore-errors field), the message being the declared `message`
if present, else the command text. -/
def Precondition.execute (p : Precondition) (W : World) (ctx : TaskContext) :
    Except RunErr Unit × List Event :=
  if p.command = "" then (.error (.panicAssert "precondition command is empty"), [])
  else
    let pr := p.proc ctx
    if W.exit pr = 0 then (.ok (), [.spawn .precond pr])
    else (.error (.precondFailed (p.message.getD p.command)), [.spawn .precond pr])

/-- `LocalRun::interactive`. -/
def LocalRun.interactiveEff (c : LocalRun) : Bool :=
  c.interactive.getD false

/-- `LocalRun::is_parallel_safe`: interactive runs are not parallel safe. -/
def LocalRun.is_parallel_safe (c : LocalRun) : Bool :=
  !c.interactiveEff

/-- `LocalRun::ignore_errors`: own override, else the context's, else the
global default. -/
def LocalRun.ignoreErrorsEff (c : LocalRun) (ctx : TaskContext) : Bool :=
  (c.ignore_errors.or ctx.ignore_errors).getD default_ignore_errors

/-- `LocalRun::verbose`: own override, else the context's, else the global
default. -/
def LocalRun.verboseEff (c : LocalRun) (ctx : TaskContext) : Bool :=
  (c.verbose.or ctx.verbose).getD default_verbose

/-- The process spawned for a `LocalRun` test gate: its shell (or the
context's) with the test command appended; no environment is injected. -/
def LocalRun.testProc (c : LocalRun) (ctx : TaskContext) (tcmd : String) : Proc :=
  ((c.shell.getD ctx.shellEff).proc).arg tcmd

/-- `LocalRun::test`: run the test command when present; non-zero exit is
reported as an error to the caller. -/
def LocalRun.testRun (c : LocalRun) (W : World) (ctx : TaskContext) :
    Except RunErr Unit × List Event :=
  match c.test with
  | none => (.ok (), [])
  | some tcmd =>
    let p := c.testProc ctx tcmd
    if W.exit p = 0 then (.ok (), [.spawn .test p])
    else (.error (.testFailed tcmd), [.spawn .test p])

/-- The main process of a `LocalRun`: shell plus command argument, optional
working directory, context environment injected. -/
def LocalRun.mainProc (c : LocalRun) (ctx : TaskContext) : Proc :=
  let p0 := ((c.shell.getD ctx.shellEff).proc).arg c.command
  let p1 := match c.work_dir with
    | some d => p0.withCwd d
    | none => p0
  p1.withEnv ctx.env_vars

/-- `LocalRun::execute`: a failing test gate skips the main command and
returns success; otherwise the main command runs and a non-zero exit is an
error unless the effective ignore-errors is set. -/
def LocalRun.execute (c : LocalRun) (W : World) (ctx : TaskContext) :
    Except RunErr Unit × List Event :=
  if c.command = "" then (.error (.panicAssert "local run command is empty"), [])
  else
    match c.testRun W ctx with
    | (.error _, tr) => (.ok (), tr)
    | (.ok _, tr) =>
      let p := c.mainProc ctx
      if W.exit p != 0 && !c.ignoreErrorsEff ctx then
        (.error (.commandFailed c.command), tr ++ [.spawn .localRun p])
      else (.ok (), tr ++ [.spawn .localRun p])

/-- The container process of a `ContainerRun`: runtime binary, standard
`run` flags, the workdir bind mount, declared mounts, per-entry `-e` flags,
image and command; the context environment is also injected host-side. -/
def ContainerRun.proc (c : ContainerRun) (W : World) (ctx : TaskContext) (rt : String) : Proc :=
  { prog := rt
    args := ["run", "--rm", "-i", "-v", W.currentDir ++ ":/workdir:z", "-w", "/workdir"]
      ++ (c.mounted_paths.map (fun m => ["-v", m])).flatten
      ++ (ctx.env_vars.map (fun kv => ["-e", kv.1 ++ "=" ++ kv.2])).flatten
      ++ [c.image] ++ c.container_command
    env := ctx.env_vars
    cwd := none }

/-- `ContainerRun::execute`: probe for a runtime, spawn; a non-zero exit is
an error unless the command's own `ignore_errors` field is set — the
context's override is never consulted here. -/
def ContainerRun.execute (c : ContainerRun) (W : World) (ctx : TaskContext) :
    Except RunErr Unit × List Event :=
  match W.whichRuntime with
  | none => (.error .runtimeNotFound, [])
  | some rt =>
    let p := c.proc W ctx rt
    if W.exit p != 0 && !c.ignore_errors then
      (.error (.commandFailed (String.intercalate " " c.container_command)), [.spawn .containerRun p])
    else (.ok (), [.spawn .containerRun p])

/-- `CommandRunner::execute_command` (the raw-string sugar): context shell
with `-c`, context environment, context-level ignore-errors only. -/
def execute_command (W : World) (ctx : TaskContext) (cmd : String) :
    Except RunErr Unit × List Event :=
  if cmd = "" then (.error (.panicAssert "raw command is empty"), [])
  else
    let p : Proc := { prog := ctx.shellEff.cmd, args := ["-c", cmd], env := ctx.env_vars, cwd := none }
    if W.exit p != 0 && !ctx.ignoreErrorsEff then
      (.error (.commandFailed cmd), [.spawn .rawRun p])
    else (.ok (), [.spawn .rawRun p])

/-- `ContainerBuild`'s effective verbosity. -/
def ContainerBuild.verboseEff (cb : ContainerBuild) (ctx : TaskContext) : Bool :=
  (cb.verbose.or ctx.verbose).getD default_verbose

/-- `ContainerBuild::get_tag`: a tag may be a shell substitution, a
template expression, or a literal. -/
def ContainerBuild.get_tag (cb : ContainerBuild) (W : World) (ctx : TaskContext) (tagIn : String) :
    Except RunErr String × List Event :=
  if is_shell_command tagIn then
    run_shell_command W tagIn ctx.shellEff.proc (cb.verboseEff ctx)
  else if is_template_command tagIn then (get_template_command_value ctx tagIn, [])
  else (.ok tagIn, [])

/-- `ContainerBuild::get_label`: resolve the dynamic tokens `MK_NOW`,
`MK_GIT_REVISION`, `MK_GIT_REMOTE_ORIGIN` (git data best effort, `unknown`
on failure), then substitution/template/literal values. -/
def ContainerBuild.get_label (cb : ContainerBuild) (W : World) (ctx : TaskContext) (labelIn : String) :
    Except RunErr String × List Event :=
  match splitOnceEq labelIn with
  | none => (.ok labelIn, [])
  | some (k, v) =>
    if v = "MK_NOW" then (.ok (k ++ "=" ++ W.nowStamp), [])
    else if v = "MK_GIT_REVISION" then (.ok (k ++ "=" ++ W.gitRevision.getD "unknown"), [])
    else if v = "MK_GIT_REMOTE_ORIGIN" then (.ok (k ++ "=" ++ W.gitRemoteOrigin.getD "unknown"), [])
    else if is_shell_command v then
      match run_shell_command W v ctx.shellEff.proc (cb.verboseEff ctx) with
      | (.ok s, tr) => (.ok (k ++ "=" ++ s), tr)
      | (.error e, tr) => (.error e, tr)
    else if is_template_command v then
      match get_template_command_value ctx v with
      | .ok s => (.ok (k ++ "=" ++ s), [])
      | .error e => (.error e, [])
    else (.ok (k ++ "=" ++ v), [])

/-- The `--label` argument pairs of a container build, resolved in order
with the first failure aborting. -/
def ContainerBuild.labelArgs (cb : ContainerBuild) (W : World) (ctx : TaskContext) :
    List String → Except RunErr (List String) × List Event
  | [] => (.ok [], [])
  | l :: rest =>
    match cb.get_label W ctx (trimChars l) with
    | (.error e, tr) => (.error e, tr)
    | (.ok s, tr) =>
      match cb.labelArgs W ctx rest with
      | (.error e, tr2) => (.error e, tr ++ tr2)
      | (.ok xs, tr2) => (.ok (["--label", s] ++ xs), tr ++ tr2)

/-- The `-t` argument pairs of a container build, resolved in order. -/
def ContainerBuild.tagArgs (cb : ContainerBuild) (W : World) (ctx : TaskContext) :
    List String → Except RunErr (List String) × List Event
  | [] => (.ok [], [])
  | t :: rest =>
    match cb.get_tag W ctx (trimChars t) with
    | (.error e, tr) => (.error e, tr)
    | (.ok s, tr) =>
      match cb.tagArgs W ctx rest with
      | (.error e, tr2) => (.error e, tr ++ tr2)
      | (.ok xs, tr2) =>
        (.ok (["-t", cb.container_build.image_name ++ ":" ++ s] ++ xs), tr ++ tr2)

/-- Build-file resolution: explicit `containerfile`, else probe for
`Dockerfile` then `Containerfile` in the context directory. -/
def ContainerBuild.fileArgs (cb : ContainerBuild) (W : World) : Except RunErr (List String) :=
  match cb.container_build.containerfile with
  | some f => .ok ["-f", f]
  | none =>
    let dockerfile := cb.container_build.context ++ "/Dockerfile"
    let containerfile := cb.container_build.context ++ "/Containerfile"
    if W.pathExists dockerfile then .ok ["-f", dockerfile]
    else if W.pathExists containerfile then .ok ["-f", containerfile]
    else .error .buildFileNotFound

/-- Assemble the full build invocation of `ContainerBuild::execute`:
`build`, boolean flags, build args, labels, tags (defaulting to `latest`
when no tag list is declared), build file and context path. -/
def ContainerBuild.assemble (cb : ContainerBuild) (W : World) (ctx : TaskContext) (rt : String) :
    Except RunErr Proc × List Event :=
  let flags :=
    (if cb.container_build.sbom then ["--sbom=true"] else [])
      ++ (if cb.container_build.no_cache then ["--no-cache=true"] else [])
      ++ (if cb.container_build.force_rm then ["--force-rm=true"] else [])
  let bargs := ((cb.container_build.build_args.getD []).map (fun a => ["--build-arg", a])).flatten
  match cb.labelArgs W ctx (cb.container_build.labels.getD []) with
  | (.error e, tr) => (.error e, tr)
  | (.ok largs, tr) =>
    let tagsRes :=
      match cb.container_build.tags with
      | some ts => cb.tagArgs W ctx ts
      | none => (.ok ["-t", cb.container_build.image_name ++ ":latest"], [])
    match tagsRes with
    | (.error e, tr2) => (.error e, tr ++ tr2)
    | (.ok targs, tr2) =>
      match cb.fileArgs W with
      | .error e => (.error e, tr ++ tr2)
      | .ok fargs =>
        (.ok { prog := rt
               args := ["build"] ++ flags ++ bargs ++ largs ++ targs ++ fargs
                 ++ [cb.container_build.context]
               env := ctx.env_vars
               cwd := none }, tr ++ tr2)

/-- `ContainerBuild::execute`: probe for a runtime, assemble, spawn; a
non-zero exit is always an error — no ignore-errors setting applies. -/
def ContainerBuild.execute (cb : ContainerBuild) (W : World) (ctx : TaskContext) :
    Except RunErr Unit × List Event :=
  if cb.container_build.context = "" then
    (.error (.panicAssert "container build context is empty"), [])
  else
    match W.whichRuntime with
    | none => (.error .runtimeNotFound, [])
    | some rt =>
      match cb.assemble W ctx rt with
      | (.error e, tr) => (.error e, tr)
      | (.ok p, tr) =>
        if W.exit p != 0 then (.error .containerBuildFailed, tr ++ [.spawn .containerBuild p])
        else (.ok (), tr ++ [.spawn .containerBuild p])

/-- The parallel-validation loop of `TaskArgs::validate_parallel_commands`:
the first non-conforming command determines the error. -/
def validateParallelGo : List CommandRunner → Except RunErr Unit
  | [] => .ok ()
  | .localRun lr :: rest =>
    if lr.is_parallel_safe then validateParallelGo rest else .error .invalidParallelInteractive
  | _ :: _ => .error .invalidParallelNonLocal

/-- `TaskArgs::validate_parallel_commands`: when `parallel` is set, every
command must be a parallel-safe `LocalRun`; validated before anything runs. -/
def TaskArgs.validate_parallel_commands (t : TaskArgs) : Except RunErr Unit :=
  if !(t.parallel.getD false) then .ok () else validateParallelGo t.commands

/-- The override-application prefix of `TaskArgs::run`: the task's shell,
ignore-errors and verbose overrides are applied onto the context. -/
def applyOverrides (t : TaskArgs) (ctx : TaskContext) : TaskContext :=
  let c1 := match t.shell with
    | some sh => ctx.set_shell sh
    | none => ctx
  let c2 := match t.ignore_errors with
    | some b => c1.set_ignore_errors b
    | none => c1
  match t.verbose with
  | some b => c2.set_verbose b
  | none => c2

/-- The environment phase of `TaskArgs::run`: apply overrides, resolve the
declared environment, read the env files, then merge the declared map into
the context first and the env-file contents on top. -/
def applyTaskEnv (t : TaskArgs) (W : World) (ctx : TaskContext) :
    Except RunErr TaskContext × List Event :=
  let c := applyOverrides t ctx
  match t.load_env W c with
  | (.error e, tr) => (.error e, tr)
  | (.ok defined, tr) =>
    match t.load_env_file W with
    | .error e => (.error e, tr)
    | .ok additional => (.ok ((c.extend_env_vars defined).extend_env_vars additional), tr)

/-- The precondition phase of `TaskArgs::run`: strictly in order, first
failure aborts. -/
def runPreconds (W : World) : List Precondition → TaskContext → Except RunErr Unit × List Event
  | [], _ => (.ok (), [])
  | p :: ps, ctx =>
    match p.execute W ctx with
    | (.error e, tr) => (.error e, tr)
    | (.ok _, tr) =>
      match runPreconds W ps ctx with
      | (r, tr2) => (r, tr ++ tr2)

/-- Interpreter state: the shared execution stack and the event trace. -/
structure ExecState where
  stack : List String
  trace : List Event
deriving Repr, DecidableEq

/-- Result of one interpreter step. -/
abbrev Res := Except RunErr Unit × ExecState

/-- Lift a stateless command result into the interpreter state. -/
def liftEv (r : Except RunErr Unit × List Event) (s : ExecState) : Res :=
  (r.1, { s with trace := s.trace ++ r.2 })

/-- Sorting of collected parallel failure messages (`failures.sort()`):
lexicographic on the message text. -/
def sortStrings (l : List String) : List String :=
  l.insertionSort (fun a b => a ≤ b)

/-- The failure messages collected by the parallel receive loop, in arrival
order: unsuccessful results kept only when the context-level effective
ignore-errors is false. -/
def parFailures (ctx : TaskContext) (results : List ((Bool × String) × List Event))
    (arrival : List Nat) : List String :=
  arrival.filterMap (fun i =>
    match results[i]? with
    | some ((success, msg), _) => if !success && !ctx.ignoreErrorsEff then some msg else none
    | none => none)

/-- The combined event trace of the parallel workers, in arrival order. -/
def parTrace (results : List ((Bool × String) × List Event)) (arrival : List Nat) : List Event :=
  (arrival.filterMap (fun i => (results[i]?).map (fun r => r.2))).flatten

/-- The aggregation step of `TaskArgs::execute_commands_parallel`: wait for
every worker, collect failures, sort them and join them into one error. -/
def collectParallel (ctx : TaskContext) (results : List ((Bool × String) × List Event))
    (arrival : List Nat) (s : ExecState) : Res :=
  let failures := parFailures ctx results arrival
  let s1 : ExecState := { s with trace := s.trace ++ parTrace results arrival }
  if failures.isEmpty then (.ok (), s1)
  else
    (.error (.parallelFailed ("Failed commands:\n" ++ String.intercalate "\n" (sortStrings failures))),
      s1)

mutual

/-- `Task::run`, fuel-indexed: a bare string runs as a single raw command
task; a structured task runs through `TaskArgs::run` (`runArgs`). -/
def runTask (W : World) (cat : Catalog) : Nat → Task → TaskContext → ExecState → Res
  | 0, _, _, s => (.error .outOfFuel, s)
  | f + 1, .str cmd, ctx, s =>
    if cmd = "" then (.error (.panicAssert "task command is empty"), s)
    else runArgs W cat f { commands := [.commandRun cmd] } ctx s
  | f + 1, .task t, ctx, s => runArgs W cat f t ctx s
termination_by f _ _ _ => (f, 0, 0)

/-- `TaskArgs::run`: assert non-empty commands, validate the parallel
configuration, apply overrides and the environment phase, then run
dependencies, preconditions and commands in that strict order. -/
def runArgs (W : World) (cat : Catalog) (f : Nat) (t : TaskArgs) (ctx : TaskContext)
    (s : ExecState) : Res :=
  if t.commands.isEmpty then (.error (.panicAssert "commands is empty"), s)
  else
    match t.validate_parallel_commands with
    | .error e => (.error e, s)
    | .ok _ =>
      match applyTaskEnv t W ctx with
      | (.error e, tr) => (.error e, { s with trace := s.trace ++ tr })
      | (.ok ctx2, tr) =>
        let s1 : ExecState := { s with trace := s.trace ++ tr }
        match runDeps W cat f t.depends_on ctx2 s1 with
        | (.error e, s2) => (.error e, s2)
        | (.ok _, s2) =>
          match runPreconds W t.preconditions ctx2 with
          | (.error e, tr2) => (.error e, { s2 with trace := s2.trace ++ tr2 })
          | (.ok _, tr2) =>
            let s3 : ExecState := { s2 with trace := s2.trace ++ tr2 }
            if t.parallel.getD false then
              execParallel W cat f t.commands ctx2 (List.range t.commands.length) s3
            else runCmds W cat f t.commands ctx2 s3
termination_by (f, 3, 0)

/-- The dependency loop of `TaskArgs::run`: strictly in list order, first
failure aborts; each dependency sees the same parent context while the
execution stack threads through. -/
def runDeps (W : World) (cat : Catalog) (f : Nat) :
    List TaskDependency → TaskContext → ExecState → Res
  | [], _, s => (.ok (), s)
  | d :: ds, ctx, s =>
    match runDep W cat f d ctx s with
    | (.error e, s2) => (.error e, s2)
    | (.ok _, s2) => runDeps W cat f ds ctx s2
termination_by ds _ _ => (f, 2, ds.length)

/-- `TaskDependency::run` / `TaskDependencyArgs::execute`: look the task
up, check-and-insert the name on the execution stack under one lock (a
present name is an immediate circular-dependency failure with nothing run),
then run the target on a derived copy of the context. -/
def runDep (W : World) (cat : Catalog) (f : Nat) (d : TaskDependency) (ctx : TaskContext)
    (s : ExecState) : Res :=
  if d.name = "" then (.error (.panicAssert "dependency name is empty"), s)
  else
    match lookupTask cat d.name with
    | none => (.error .taskNotFound, s)
    | some t =>
      if d.name ∈ s.stack then (.error (.circularDependency d.name), s)
      else runTask W cat f t ctx.from_context { s with stack := d.name :: s.stack }
termination_by (f, 1, 0)

/-- The sequential command loop of `TaskArgs::run`: in list order, first
unsuppressed failure aborts and skips the remaining commands. -/
def runCmds (W : World) (cat : Catalog) (f : Nat) :
    List CommandRunner → TaskContext → ExecState → Res
  | [], _, s => (.ok (), s)
  | c :: cs, ctx, s =>
    match runCmd W cat f c ctx s with
    | (.error e, s2) => (.error e, s2)
    | (.ok _, s2) => runCmds W cat f cs ctx s2
termination_by cs _ _ => (f, 2, cs.length)

/-- `CommandRunner::execute`: dispatch on the variant; `TaskRun` recurses
into `Task::run` with its effective ignore-errors and verbose installed as
the nested context's overrides. -/
def runCmd (W : World) (cat : Catalog) (f : Nat) (c : CommandRunner) (ctx : TaskContext)
    (s : ExecState) : Res :=
  match c with
  | .localRun lr => liftEv (lr.execute W ctx) s
  | .containerRun cr => liftEv (cr.execute W ctx) s
  | .containerBuild cb => liftEv (cb.execute W ctx) s
  | .commandRun cmd => liftEv (execute_command W ctx cmd) s
  | .taskRun trun =>
    if trun.task = "" then (.error (.panicAssert "task run name is empty"), s)
    else
      let ie := (trun.ignore_errors.or ctx.ignore_errors).getD default_ignore_errors
      let vb := (trun.verbose.or ctx.verbose).getD default_verbose
      match lookupTask cat trun.task with
      | none => (.error .taskNotFound, s)
      | some t =>
        if trun.task ∈ s.stack then (.error (.circularDependency trun.task), s)
        else
          runTask W cat f t (ctx.from_context_with_args ie vb)
            { s with stack := trun.task :: s.stack }
termination_by (f, 1, 0)

/-- One parallel worker: execute the command on a cloned context and report
success or failure with the channel message of the source. -/
def parWorker (W : World) (cat : Catalog) (f : Nat) (ctx : TaskContext) (stack : List String)
    (i : Nat) (c : CommandRunner) : (Bool × String) × List Event :=
  match runCmd W cat f c ctx { stack := stack, trace := [] } with
  | (.ok _, s2) => ((true, "Command " ++ toString (i + 1) ++ " completed successfully"), s2.trace)
  | (.error e, s2) => ((false, "Command " ++ toString (i + 1) ++ " failed: " ++ e.render), s2.trace)
termination_by (f, 1, 1)

/-- `TaskArgs::execute_commands_parallel`: one worker per command, results
drained in the (nondeterministic) arrival order, aggregation only after all
workers reported. -/
def execParallel (W : World) (cat : Catalog) (f : Nat) (cmds : List CommandRunner)
    (ctx : TaskContext) (arrival : List Nat) (s : ExecState) : Res :=
  collectParallel ctx (cmds.enum.map (fun ic => parWorker W cat f ctx s.stack ic.1 ic.2)) arrival s
termination_by (f, 2, 0)

end

/-- The root `TaskContext` built by `CliEntry::run_task`
(`TaskContext::new`): empty environment, no overrides, not nested. -/
def rootContext : TaskContext := { env_vars := [] }

/-- `CliEntry::run_task`: look the task up, insert its name into the fresh
per-invocation execution stack, run it, and clear the stack — the clear is
skipped when the run returns early with an error. Returns the result, the
stack contents left behind, and the trace. -/
def CliEntry.run_task (W : World) (cat : Catalog) (f : Nat) (stack : List String)
    (name : String) : Except RunErr Unit × List String × List Event :=
  if name = "" then (.error (.panicAssert "task name is empty"), stack, [])
  else
    match lookupTask cat name with
    | none => (.error .taskNotFound, stack, [])
    | some t =>
      let stack1 := if name ∈ stack then stack else name :: stack
      match runTask W cat f t rootContext { stack := stack1, trace := [] } with
      | (.ok _, s2) => (.ok (), [], s2.trace)
      | (.error e, s2) => (.error e, s2.stack, s2.trace)

/-- The argument list declared on a shell value (empty for a bare name). -/
def Shell.declaredArgs : Shell → List String
  | .str _ => []
  | .shell sa => sa.args.getD []

theorem lookupEnv_append (l1 l2 : EnvList) (k : String) :
    lookupEnv (l1 ++ l2) k = (lookupEnv l2 k).orElse (fun _ => lookupEnv l1 k) := by
  unfold lookupEnv
  rw [List.reverse_append, List.find?_append]
  cases List.find? (fun p => p.1 == k) l2.reverse <;> simp [Option.orElse]

theorem shell_args_posix (sa : ShellArgs) (h : sa.command ∈ posix_shell) :
    sa.shell_args =
      if "-c" ∈ sa.args.getD [] then sa.args.getD [] else sa.args.getD [] ++ ["-c"] := by
  have hc : posix_shell.contains sa.command = true := by
    simpa using h
  have hany : ((sa.args.getD []).any (fun a => a == "-c")) = decide ("-c" ∈ sa.args.getD []) := by
    by_cases hmem : "-c" ∈ sa.args.getD []
    · simp [hmem]
    · simp only [hmem, decide_False]
      simp only [List.any_eq_false, beq_iff_eq]
      intro x hx hxe
      exact hmem (hxe ▸ hx)
  unfold ShellArgs.shell_args
  simp only [hc, hany]
  by_cases hmem : "-c" ∈ sa.args.getD [] <;> simp [hmem]

/-- C9 counterexample: for the shell `sh` with declared args `["-c","-c"]`
the built argument list contains `-c` twice, not exactly once; the code
leaves an already-present `-c` untouched without deduplicating. -/
theorem C9_counterexample :
    (Shell.shell ⟨"sh", some ["-c", "-c"]⟩).cmd ∈ posix_shell ∧
    ¬ (Shell.shell ⟨"sh", some ["-c", "-c"]⟩).argsList.count "-c" = 1 := by
  decide

/-- C9 (amended): for every shell whose command is a known POSIX shell name,
the built argument list always contains `-c`; it equals the declared args
when `-c` is already declared and the declared args followed by `-c`
otherwise, so it holds `-c` exactly once whenever the declared args contain
`-c` at most once. -/
theorem C9_shell_args (sh : Shell) (h : sh.cmd ∈ posix_shell) :
    "-c" ∈ sh.argsList ∧
    ("-c" ∈ sh.declaredArgs → sh.argsList = sh.declaredArgs) ∧
    ("-c" ∉ sh.declaredArgs → sh.argsList = sh.declaredArgs ++ ["-c"]) ∧
    (sh.declaredArgs.count "-c" ≤ 1 → sh.argsList.count "-c" = 1) := by
  cases sh with
  | str c =>
    have h' : (⟨c, none⟩ : ShellArgs).command ∈ posix_shell := h
    have := shell_args_posix ⟨c, none⟩ h'
    simp only [Option.getD_none] at this
    constructor
    · show "-c" ∈ ShellArgs.shell_args ⟨c, none⟩
      rw [this]; simp
    · refine ⟨fun hm => absurd hm (by simp [Shell.declaredArgs]), fun _ => ?_, fun _ => ?_⟩
      · show ShellArgs.shell_args ⟨c, none⟩ = Shell.declaredArgs (.str c) ++ ["-c"]
        rw [this]; simp [Shell.declaredArgs]
      · show (ShellArgs.shell_args ⟨c, none⟩).count "-c" = 1
        rw [this]; simp
  | shell sa =>
    have h' : sa.command ∈ posix_shell := h
    have heq := shell_args_posix sa h'
    have hd : Shell.declaredArgs (.shell sa) = sa.args.getD [] := rfl
    have ha : Shell.argsList (.shell sa) = sa.shell_args := rfl
    by_cases hmem : "-c" ∈ sa.args.getD []
    · rw [if_pos hmem] at heq
      refine ⟨?_, fun _ => by rw [ha, heq, hd], fun hn => absurd (hd ▸ hmem) hn, fun hle => ?_⟩
      · rw [ha, heq]; exact hmem
      · rw [ha, heq]
        have h1 : 0 < (sa.args.getD []).count "-c" := List.count_pos_iff.mpr hmem
        have h2 : (sa.args.getD []).count "-c" ≤ 1 := by rw [hd] at hle; exact hle
        omega
    · rw [if_neg hmem] at heq
      refine ⟨?_, fun hm => absurd (hd ▸ hm) hmem, fun _ => by rw [ha, heq, hd], fun _ => ?_⟩
      · rw [ha, heq]; simp
      · rw [ha, heq]
        rw [List.count_append]
        have h0 : (sa.args.getD []).count "-c" = 0 := by
          exact List.count_eq_zero.mpr hmem
        simp [h0]

/-- Closed instantiation of `C9_shell_args` at the bare shell `bash`. -/
theorem C9_shell_args_witness :
    "-c" ∈ (Shell.str "bash").argsList ∧
    ("-c" ∈ (Shell.str "bash").declaredArgs →
      (Shell.str "bash").argsList = (Shell.str "bash").declaredArgs) ∧
    ("-c" ∉ (Shell.str "bash").declaredArgs →
      (Shell.str "bash").argsList = (Shell.str "bash").declaredArgs ++ ["-c"]) ∧
    ((Shell.str "bash").declaredArgs.count "-c" ≤ 1 →
      (Shell.str "bash").argsList.count "-c" = 1) :=
  C9_shell_args (Shell.str "bash") (by decide)

/-- A sample world with the given exit-code oracle, used by witnesses. -/
def exitWorld (f : Proc → Nat) : World :=
  { exit := f
    stdoutLines := fun _ => ["out"]
    readFile := fun _ => none
    whichRuntime := some "docker"
    pathExists := fun _ => false
    nowStamp := "now"
    gitRevision := none
    gitRemoteOrigin := none
    currentDir := "/cur" }

/-- A world in which every process exits non-zero. -/
def failWorld : World := exitWorld (fun _ => 1)

/-- A world in which every process succeeds. -/
def okWorld : World := exitWorld (fun _ => 0)

/-- A world in which exactly the processes carrying a `bad` argument exit
non-zero. -/
def badWorld : World := exitWorld (fun p => if p.args.contains "bad" then 1 else 0)

/-- C6: a `LocalRun` whose test command exits non-zero returns success
without ever spawning its main command, whatever the ignore-errors,
verbosity and interactive settings; the trace holds only the test spawn. -/
theorem C6_test_gate_skips (W : World) (c : LocalRun) (ctx : TaskContext) (tcmd : String)
    (hcmd : c.command ≠ "") (ht : c.test = some tcmd)
    (hfail : W.exit (c.testProc ctx tcmd) ≠ 0) :
    c.execute W ctx = (.ok (), [.spawn .test (c.testProc ctx tcmd)]) := by
  have htr : c.testRun W ctx =
      (.error (.testFailed tcmd), [.spawn .test (c.testProc ctx tcmd)]) := by
    unfold LocalRun.testRun
    rw [ht]
    simp [hfail]
  unfold LocalRun.execute
  rw [if_neg hcmd, htr]

/-- Closed instantiation of `C6_test_gate_skips`: `test: exit 1` with
`command: echo ok` and ignore-errors unset succeeds and spawns no main
command. -/
theorem C6_test_gate_skips_witness :
    LocalRun.execute { command := "echo ok", test := some "exit 1" } failWorld rootContext =
      (.ok (), [.spawn .test
        (LocalRun.testProc { command := "echo ok", test := some "exit 1" } rootContext "exit 1")]) :=
  C6_test_gate_skips failWorld { command := "echo ok", test := some "exit 1" } rootContext "exit 1"
    (by decide) rfl (by decide)

theorem precond_execute_spec (W : World) (p : Precondition) (ctx : TaskContext)
    (hcmd : p.command ≠ "") :
    (((p.execute W ctx).1 = .ok ()) ↔ W.exit (p.proc ctx) = 0) ∧
    (W.exit (p.proc ctx) ≠ 0 →
      p.execute W ctx =
        (.error (.precondFailed (p.message.getD p.command)), [.spawn .precond (p.proc ctx)])) := by
  unfold Precondition.execute
  rw [if_neg hcmd]
  by_cases hz : W.exit (p.proc ctx) = 0 <;> simp [hz]

theorem runPreconds_sites (W : World) (ps : List Precondition) (ctx : TaskContext) :
    ∀ e ∈ (runPreconds W ps ctx).2, e.site = .precond := by
  induction ps with
  | nil => simp [runPreconds]
  | cons p ps ih =>
    have hexec : ∀ e ∈ (p.execute W ctx).2, e.site = .precond := by
      unfold Precondition.execute
      by_cases hc : p.command = "" <;> by_cases hz : W.exit (p.proc ctx) = 0 <;>
        simp [hc, hz, Event.site]
    unfold runPreconds
    match hpe : p.execute W ctx with
    | (.error e, tr) =>
      intro ev hev
      exact hexec ev (by rw [hpe]; exact hev)
    | (.ok _, tr) =>
      match hr : runPreconds W ps ctx with
      | (r, tr2) =>
        intro ev hev
        simp only [List.mem_append] at hev
        rcases hev with h | h
        · exact hexec ev (by rw [hpe]; exact h)
        · exact ih ev (by rw [hr]; exact h)

theorem runPreconds_fail (W : World) (ps : List Precondition) (ctx : TaskContext)
    (hne : ∀ p ∈ ps, p.command ≠ "")
    (hfail : ∃ p ∈ ps, W.exit (p.proc ctx) ≠ 0) :
    ∃ p2 ∈ ps, W.exit (p2.proc ctx) ≠ 0 ∧
      (runPreconds W ps ctx).1 = .error (.precondFailed (p2.message.getD p2.command)) := by
  induction ps with
  | nil => simp at hfail
  | cons p ps ih =>
    by_cases hz : W.exit (p.proc ctx) = 0
    · have hok : (p.execute W ctx).1 = .ok () :=
        ((precond_execute_spec W p ctx (hne p (by simp))).1).mpr hz
      have hfail2 : ∃ q ∈ ps, W.exit (q.proc ctx) ≠ 0 := by
        rcases hfail with ⟨q, hq, hqf⟩
        rcases List.mem_cons.mp hq with rfl | hq2
        · exact absurd hz hqf
        · exact ⟨q, hq2, hqf⟩
      rcases ih (fun q hq => hne q (List.mem_cons_of_mem _ hq)) hfail2 with ⟨p2, hp2, hp2f, hres⟩
      refine ⟨p2, List.mem_cons_of_mem _ hp2, hp2f, ?_⟩
      unfold runPreconds
      match hpe : p.execute W ctx with
      | (.error e, tr) => rw [hpe] at hok; simp at hok
      | (.ok _, tr) =>
        match hr : runPreconds W ps ctx with
        | (r, tr2) => rw [hr] at hres; simpa using hres
    · have herr := (precond_execute_spec W p ctx (hne p (by simp))).2 hz
      refine ⟨p, by simp, hz, ?_⟩
      unfold runPreconds
      rw [herr]

/-- C2: preconditions are unconditionally fatal. A precondition's execute
errors exactly when its command exits non-zero, whatever any ignore-errors
setting, with the message carrying `message` if present else the command
text; and a task whose dependency phase succeeded but that has a failing
precondition aborts with that precondition error, its trace extending the
post-dependency trace by precondition spawns only — no task command runs. -/
theorem C2_preconditions_fatal :
    (∀ (W : World) (p : Precondition) (ctx : TaskContext), p.command ≠ "" →
      (((p.execute W ctx).1 = .ok ()) ↔ W.exit (p.proc ctx) = 0) ∧
      (W.exit (p.proc ctx) ≠ 0 →
        (p.execute W ctx).1 = .error (.precondFailed (p.message.getD p.command)))) ∧
    (∀ (W : World) (cat : Catalog) (f : Nat) (t : TaskArgs) (ctx ctx2 : TaskContext)
        (s s2 : ExecState) (trE : List Event),
      t.commands ≠ [] →
      t.validate_parallel_commands = .ok () →
      applyTaskEnv t W ctx = (.ok ctx2, trE) →
      runDeps W cat f t.depends_on ctx2 { s with trace := s.trace ++ trE } = (.ok (), s2) →
      (∀ p ∈ t.preconditions, p.command ≠ "") →
      (∃ p ∈ t.preconditions, W.exit (p.proc ctx2) ≠ 0) →
      ∃ p2 ∈ t.preconditions, ∃ tr2 : List Event,
        W.exit (p2.proc ctx2) ≠ 0 ∧
        runArgs W cat f t ctx s =
          (.error (.precondFailed (p2.message.getD p2.command)),
            { s2 with trace := s2.trace ++ tr2 }) ∧
        ∀ e ∈ tr2, e.site = .precond) := by
  constructor
  · intro W p ctx hcmd
    refine ⟨(precond_execute_spec W p ctx hcmd).1, fun hz => ?_⟩
    rw [(precond_execute_spec W p ctx hcmd).2 hz]
  · intro W cat f t ctx ctx2 s s2 trE hcmds hval henv hdeps hpne hpfail
    rcases runPreconds_fail W t.preconditions ctx2 hpne hpfail with ⟨p2, hp2, hp2f, hres⟩
    refine ⟨p2, hp2, (runPreconds W t.preconditions ctx2).2, hp2f, ?_,
      runPreconds_sites W t.preconditions ctx2⟩
    have hie : t.commands.isEmpty = false := by
      simp [List.isEmpty_iff, hcmds]
    rw [runArgs, hie]
    simp only [Bool.false_eq_true, if_false]
    rw [hval, henv]
    dsimp only
    rw [hdeps]
    dsimp only
    match hr : runPreconds W t.preconditions ctx2 with
    | (r, tr2) =>
      rw [hr] at hres
      simp only at hres
      rw [hres]

/-- The concrete task of the C2 witness: precondition `false`, command
`echo ok`, task-level ignore-errors set. -/
def C2w_task : TaskArgs :=
  { commands := [.commandRun "echo ok"]
    preconditions := [{ command := "false" }]
    ignore_errors := some true }

/-- The context produced by the C2 witness task's override phase. -/
def C2w_ctx2 : TaskContext := { env_vars := [], ignore_errors := some true }

/-- Closed instantiation of `C2_preconditions_fatal`: with every process
failing, the witness task aborts on its precondition despite
`ignore_errors: true`, with only precondition spawns in the trace. -/
theorem C2_preconditions_fatal_witness :
    ∃ p2 ∈ C2w_task.preconditions, ∃ tr2 : List Event,
      failWorld.exit (p2.proc C2w_ctx2) ≠ 0 ∧
      runArgs failWorld [] 0 C2w_task rootContext ⟨[], []⟩ =
        (.error (.precondFailed (p2.message.getD p2.command)),
          { stack := [], trace := [] ++ tr2 }) ∧
      ∀ e ∈ tr2, e.site = .precond :=
  C2_preconditions_fatal.2 failWorld [] 0 C2w_task rootContext C2w_ctx2 ⟨[], []⟩ ⟨[], []⟩ []
    (by decide) rfl rfl (by simp [C2w_task, runDeps]) (by decide) (by decide)

/-- The C3 counterexample command: a container run with no explicit
ignore-errors (serde default `false`). -/
def C3w_cr : ContainerRun := { container_command := ["x"], image := "img" }

/-- The C3 counterexample context: the enclosing task's ignore-errors
override is set. -/
def C3w_ctx : TaskContext := { env_vars := [], ignore_errors := some true }

/-- C3 counterexample: a `ContainerRun` without its own override fails
under a context whose effective ignore-errors is true — the claimed
suppression cascade (own override, else the task's, else false) does not
hold for this variant, because the context override is never consulted. -/
theorem C3_counterexample :
    C3w_ctx.ignoreErrorsEff = true ∧
    C3w_cr.ignore_errors = false ∧
    (C3w_cr.execute failWorld C3w_ctx).1 =
      .error (.commandFailed "x") := by
  decide

/-- C3 (amended): the suppression rule is per variant. `LocalRun` follows
the cascade own-override / context (which carries the task override) /
default-false; the raw `CommandRun` consults the context cascade only;
`ContainerRun` consults only its own boolean field (default false) and
never the context; `ContainerBuild` never suppresses a build failure; and
`TaskRun` does not suppress at all — the nested run's outcome propagates
unchanged, the effective ignore-errors being installed as the nested
context's override instead. -/
theorem C3_ignore_errors_per_variant :
    (∀ (W : World) (lr : LocalRun) (ctx : TaskContext),
      lr.command ≠ "" → lr.test = none →
      ((lr.execute W ctx).1 = .ok () ↔
        (W.exit (lr.mainProc ctx) = 0 ∨ lr.ignoreErrorsEff ctx = true))) ∧
    (∀ (W : World) (ctx : TaskContext) (cmd : String), cmd ≠ "" →
      ((execute_command W ctx cmd).1 = .ok () ↔
        (W.exit ⟨ctx.shellEff.cmd, ["-c", cmd], ctx.env_vars, none⟩ = 0 ∨
          ctx.ignoreErrorsEff = true))) ∧
    (∀ (W : World) (cr : ContainerRun) (ctx : TaskContext) (rt : String),
      W.whichRuntime = some rt →
      ((cr.execute W ctx).1 = .ok () ↔
        (W.exit (cr.proc W ctx rt) = 0 ∨ cr.ignore_errors = true))) ∧
    (∀ (W : World) (cb : ContainerBuild) (ctx : TaskContext),
      (cb.execute W ctx).1 = .ok () →
      ∃ rt p tr, W.whichRuntime = some rt ∧ cb.assemble W ctx rt = (.ok p, tr) ∧
        W.exit p = 0) ∧
    (∀ (W : World) (cat : Catalog) (f : Nat) (trun : TaskRun) (ctx : TaskContext)
        (s : ExecState) (t : Task),
      trun.task ≠ "" → lookupTask cat trun.task = some t → trun.task ∉ s.stack →
      runCmd W cat f (.taskRun trun) ctx s =
        runTask W cat f t
          (ctx.from_context_with_args
            ((trun.ignore_errors.or ctx.ignore_errors).getD default_ignore_errors)
            ((trun.verbose.or ctx.verbose).getD default_verbose))
          { s with stack := trun.task :: s.stack }) := by
  refine ⟨?_, ?_, ?_, ?_, ?_⟩
  · intro W lr ctx hcmd ht
    have htr : lr.testRun W ctx = (.ok (), []) := by
      unfold LocalRun.testRun
      rw [ht]
    unfold LocalRun.execute
    rw [if_neg hcmd, htr]
    by_cases hz : W.exit (lr.mainProc ctx) = 0 <;>
      by_cases hig : lr.ignoreErrorsEff ctx = true <;>
      simp [hz, hig]
  · intro W ctx cmd hcmd
    unfold execute_command
    rw [if_neg hcmd]
    by_cases hz : W.exit ⟨ctx.shellEff.cmd, ["-c", cmd], ctx.env_vars, none⟩ = 0 <;>
      by_cases hig : ctx.ignoreErrorsEff = true <;>
      simp [hz, hig]
  · intro W cr ctx rt hrt
    unfold ContainerRun.execute
    rw [hrt]
    by_cases hz : W.exit (cr.proc W ctx rt) = 0 <;>
      by_cases hig : cr.ignore_errors = true <;>
      simp [hz, hig]
  · intro W cb ctx hok
    unfold ContainerBuild.execute at hok
    by_cases hc : cb.container_build.context = ""
    · rw [if_pos hc] at hok
      simp at hok
    · rw [if_neg hc] at hok
      match hrt : W.whichRuntime with
      | none => rw [hrt] at hok; simp at hok
      | some rt =>
        rw [hrt] at hok
        dsimp only at hok
        match ha : cb.assemble W ctx rt with
        | (.error e, tr) => rw [ha] at hok; simp at hok
        | (.ok p, tr) =>
          rw [ha] at hok
          dsimp only at hok
          refine ⟨rt, p, tr, rfl, ha, ?_⟩
          by_cases hz : W.exit p = 0
          · exact hz
          · exfalso
            have hb : (W.exit p != 0) = true := by simpa using hz
            rw [hb] at hok
            simp at hok
  · intro W cat f trun ctx s t hname hlook hmem
    rw [runCmd]
    rw [if_neg hname, hlook]
    dsimp only
    rw [if_neg hmem]

/-- Closed instantiation of the `ContainerRun` part of
`C3_ignore_errors_per_variant`. -/
theorem C3_ignore_errors_per_variant_witness :
    (C3w_cr.execute okWorld C3w_ctx).1 = .ok () ↔
      (okWorld.exit (C3w_cr.proc okWorld C3w_ctx "docker") = 0 ∨
        C3w_cr.ignore_errors = true) :=
  C3_ignore_errors_per_variant.2.2.1 okWorld C3w_cr C3w_ctx "docker" rfl

/-- C4: environment merge order. Lookup in a concatenated environment map
prefers the later block (later writes win); and when both the declared
environment and the env files resolve, the context handed to the rest of the
run merges the declared map first and the env-file contents on top, so a key
bound in the env files is observed with the env-file value, and a key bound
only in the declared environment with its resolved value. -/
theorem C4_env_merge_order :
    (∀ (l1 l2 : EnvList) (k : String),
      lookupEnv (l1 ++ l2) k = (lookupEnv l2 k).orElse (fun _ => lookupEnv l1 k)) ∧
    (∀ (t : TaskArgs) (W : World) (ctx : TaskContext) (trE : List Event)
        (defined additional : EnvList),
      t.load_env W (applyOverrides t ctx) = (.ok defined, trE) →
      t.load_env_file W = .ok additional →
      applyTaskEnv t W ctx =
        (.ok (((applyOverrides t ctx).extend_env_vars defined).extend_env_vars additional), trE) ∧
      (∀ k v, lookupEnv additional k = some v →
        lookupEnv (((applyOverrides t ctx).extend_env_vars defined).extend_env_vars
          additional).env_vars k = some v) ∧
      (∀ k v, lookupEnv additional k = none → lookupEnv defined k = some v →
        lookupEnv (((applyOverrides t ctx).extend_env_vars defined).extend_env_vars
          additional).env_vars k = some v)) := by
  constructor
  · exact lookupEnv_append
  · intro t W ctx trE defined additional henv hfile
    have henvs : (((applyOverrides t ctx).extend_env_vars defined).extend_env_vars
        additional).env_vars = ((applyOverrides t ctx).env_vars ++ defined) ++ additional := rfl
    refine ⟨?_, ?_, ?_⟩
    · simp only [applyTaskEnv]
      rw [henv, hfile]
    · intro k v hk
      rw [henvs, lookupEnv_append, hk]
      rfl
    · intro k v hnone hk
      rw [henvs, lookupEnv_append, hnone]
      show (lookupEnv ((applyOverrides t ctx).env_vars ++ defined) k) = some v
      rw [lookupEnv_append, hk]
      rfl

/-- A world whose env-file reader serves `f.env` with the line
`FOO = baz`. -/
def envWorld : World :=
  { okWorld with readFile := fun f => if f = "f.env" then some ["FOO = baz"] else none }

/-- The C4 witness task: inline `FOO: bar` plus an env file binding
`FOO=baz`. -/
def C4w_task : TaskArgs :=
  { commands := [.commandRun "show"]
    environment := [("FOO", "bar")]
    env_file := ["f.env"] }

/-- Closed instantiation of `C4_env_merge_order`: the merged context maps
`FOO` to the env-file value `baz`, overriding the inline `bar`. -/
theorem C4_env_merge_order_witness :
    lookupEnv (((applyOverrides C4w_task rootContext).extend_env_vars
      [("FOO", "bar")]).extend_env_vars [("FOO", "baz")]).env_vars "FOO" = some "baz" :=
  (C4_env_merge_order.2 C4w_task envWorld rootContext [] [("FOO", "bar")] [("FOO", "baz")]
    (by decide) (by decide)).2.1 "FOO" "baz" (by decide)

theorem collectParallel_stack (ctx : TaskContext) (results : List ((Bool × String) × List Event))
    (arrival : List Nat) (s : ExecState) :
    (collectParallel ctx results arrival s).2.stack = s.stack := by
  unfold collectParallel
  dsimp only
  split <;> rfl

/-- Execution-stack monotonicity: no interpreter step ever removes a name
from the shared execution stack. -/
theorem stackMono (f : Nat) :
    (∀ (W : World) (cat : Catalog) (t : Task) (ctx : TaskContext) (s : ExecState) (x : String),
      x ∈ s.stack → x ∈ (runTask W cat f t ctx s).2.stack) ∧
    (∀ (W : World) (cat : Catalog) (t : TaskArgs) (ctx : TaskContext) (s : ExecState) (x : String),
      x ∈ s.stack → x ∈ (runArgs W cat f t ctx s).2.stack) ∧
    (∀ (W : World) (cat : Catalog) (ds : List TaskDependency) (ctx : TaskContext)
        (s : ExecState) (x : String),
      x ∈ s.stack → x ∈ (runDeps W cat f ds ctx s).2.stack) ∧
    (∀ (W : World) (cat : Catalog) (d : TaskDependency) (ctx : TaskContext)
        (s : ExecState) (x : String),
      x ∈ s.stack → x ∈ (runDep W cat f d ctx s).2.stack) ∧
    (∀ (W : World) (cat : Catalog) (cs : List CommandRunner) (ctx : TaskContext)
        (s : ExecState) (x : String),
      x ∈ s.stack → x ∈ (runCmds W cat f cs ctx s).2.stack) ∧
    (∀ (W : World) (cat : Catalog) (c : CommandRunner) (ctx : TaskContext)
        (s : ExecState) (x : String),
      x ∈ s.stack → x ∈ (runCmd W cat f c ctx s).2.stack) := by
  induction f using Nat.strong_induction_on with
  | _ f ih =>
    have hTask : ∀ (W : World) (cat : Catalog) (t : Task) (ctx : TaskContext) (s : ExecState)
        (x : String), x ∈ s.stack → x ∈ (runTask W cat f t ctx s).2.stack := by
      intro W cat t ctx s x hx
      match f, t with
      | 0, t => rw [runTask]; exact hx
      | g + 1, .str cmd =>
        rw [runTask]
        split
        · exact hx
        · exact (ih g (by omega)).2.1 W cat _ ctx s x hx
      | g + 1, .task t =>
        rw [runTask]
        exact (ih g (by omega)).2.1 W cat t ctx s x hx
    have hDep : ∀ (W : World) (cat : Catalog) (d : TaskDependency) (ctx : TaskContext)
        (s : ExecState) (x : String), x ∈ s.stack → x ∈ (runDep W cat f d ctx s).2.stack := by
      intro W cat d ctx s x hx
      rw [runDep]
      split
      · exact hx
      · split
        · exact hx
        · split
          · exact hx
          · exact hTask W cat _ _ _ x (List.mem_cons_of_mem _ hx)
    have hCmd : ∀ (W : World) (cat : Catalog) (c : CommandRunner) (ctx : TaskContext)
        (s : ExecState) (x : String), x ∈ s.stack → x ∈ (runCmd W cat f c ctx s).2.stack := by
      intro W cat c ctx s x hx
      match c with
      | .localRun lr => rw [runCmd]; exact hx
      | .containerRun cr => rw [runCmd]; exact hx
      | .containerBuild cb => rw [runCmd]; exact hx
      | .commandRun cmd => rw [runCmd]; exact hx
      | .taskRun trun =>
        rw [runCmd]
        split
        · exact hx
        · split
          · exact hx
          · split
            · exact hx
            · exact hTask W cat _ _ _ x (List.mem_cons_of_mem _ hx)
    have hDeps : ∀ (W : World) (cat : Catalog) (ds : List TaskDependency) (ctx : TaskContext)
        (s : ExecState) (x : String), x ∈ s.stack → x ∈ (runDeps W cat f ds ctx s).2.stack := by
      intro W cat ds
      induction ds with
      | nil => intro ctx s x hx; rw [runDeps]; exact hx
      | cons d ds ihd =>
        intro ctx s x hx
        rw [runDeps]
        have hmem := hDep W cat d ctx s x hx
        match hd : runDep W cat f d ctx s with
        | (.error e, s2) =>
          rw [hd] at hmem
          exact hmem
        | (.ok _, s2) =>
          rw [hd] at hmem
          exact ihd ctx s2 x hmem
    have hCmds : ∀ (W : World) (cat : Catalog) (cs : List CommandRunner) (ctx : TaskContext)
        (s : ExecState) (x : String), x ∈ s.stack → x ∈ (runCmds W cat f cs ctx s).2.stack := by
      intro W cat cs
      induction cs with
      | nil => intro ctx s x hx; rw [runCmds]; exact hx
      | cons c cs ihc =>
        intro ctx s x hx
        rw [runCmds]
        have hmem := hCmd W cat c ctx s x hx
        match hc : runCmd W cat f c ctx s with
        | (.error e, s2) =>
          rw [hc] at hmem
          exact hmem
        | (.ok _, s2) =>
          rw [hc] at hmem
          exact ihc ctx s2 x hmem
    have hArgs : ∀ (W : World) (cat : Catalog) (t : TaskArgs) (ctx : TaskContext)
        (s : ExecState) (x : String), x ∈ s.stack → x ∈ (runArgs W cat f t ctx s).2.stack := by
      intro W cat t ctx s x hx
      rw [runArgs]
      split
      · exact hx
      · split
        · exact hx
        · split
          · exact hx
          · rename_i ctx2 tr henv
            have hmem := hDeps W cat t.depends_on ctx2
              { stack := s.stack, trace := s.trace ++ tr } x hx
            dsimp only
            match hd : runDeps W cat f t.depends_on ctx2
                { stack := s.stack, trace := s.trace ++ tr } with
            | (.error e, s2) =>
              rw [hd] at hmem
              exact hmem
            | (.ok u, s2) =>
              rw [hd] at hmem
              match hp : runPreconds W t.preconditions ctx2 with
              | (.error e, tr2) => exact hmem
              | (.ok u2, tr2) =>
                dsimp only
                split
                · rw [execParallel, collectParallel_stack]
                  exact hmem
                · exact hCmds W cat t.commands ctx2 _ x hmem
    exact ⟨hTask, hArgs, hDeps, hDep, hCmds, hCmd⟩

/-- C8: context derivation into nested scopes. Both derivations hand the
child a copy of the parent's `env_vars` (and overrides, explicitly set ones
apart) with `is_nested` set; a dependency runs its target exactly on such a
derived copy with the dependency name pushed on the shared stack; stack
insertions made during the nested run are still present afterwards (the
stack is shared forward); and the remaining dependencies receive the same
unchanged parent context, so nothing a dependency does to its own copy of
the environment flows back into the invoking task's context. -/
theorem C8_context_derivation :
    (∀ ctx : TaskContext,
      (TaskContext.from_context ctx).env_vars = ctx.env_vars ∧
      (TaskContext.from_context ctx).shell = ctx.shell ∧
      (TaskContext.from_context ctx).ignore_errors = ctx.ignore_errors ∧
      (TaskContext.from_context ctx).verbose = ctx.verbose ∧
      (TaskContext.from_context ctx).is_nested = true) ∧
    (∀ (ctx : TaskContext) (ie v : Bool),
      (TaskContext.from_context_with_args ctx ie v).env_vars = ctx.env_vars ∧
      (TaskContext.from_context_with_args ctx ie v).shell = ctx.shell ∧
      (TaskContext.from_context_with_args ctx ie v).ignore_errors = some ie ∧
      (TaskContext.from_context_with_args ctx ie v).verbose = some v ∧
      (TaskContext.from_context_with_args ctx ie v).is_nested = true) ∧
    (∀ (W : World) (cat : Catalog) (f : Nat) (d : TaskDependency) (ctx : TaskContext)
        (s : ExecState) (t : Task),
      d.name ≠ "" → lookupTask cat d.name = some t → d.name ∉ s.stack →
      runDep W cat f d ctx s =
        runTask W cat f t ctx.from_context { s with stack := d.name :: s.stack }) ∧
    (∀ (W : World) (cat : Catalog) (f : Nat) (d : TaskDependency) (ctx : TaskContext)
        (s : ExecState) (x : String),
      x ∈ s.stack → x ∈ (runDep W cat f d ctx s).2.stack) ∧
    (∀ (W : World) (cat : Catalog) (f : Nat) (d : TaskDependency) (ds : List TaskDependency)
        (ctx : TaskContext) (s s2 : ExecState),
      runDep W cat f d ctx s = (.ok (), s2) →
      runDeps W cat f (d :: ds) ctx s = runDeps W cat f ds ctx s2) := by
  refine ⟨fun ctx => ⟨rfl, rfl, rfl, rfl, rfl⟩, fun ctx ie v => ⟨rfl, rfl, rfl, rfl, rfl⟩,
    ?_, ?_, ?_⟩
  · intro W cat f d ctx s t hname hlook hmem
    rw [runDep, if_neg hname, hlook]
    dsimp only
    rw [if_neg hmem]
  · intro W cat f d ctx s x hx
    exact (stackMono f).2.2.2.1 W cat d ctx s x hx
  · intro W cat f d ds ctx s s2 hd
    rw [runDeps, hd]

/-- The C8 witness catalog: one trivial task `b`. -/
def C8w_cat : Catalog := [("b", .task { commands := [.commandRun "ok"] })]

/-- The C8 witness parent context. -/
def C8w_ctx : TaskContext := { env_vars := [("K", "V")], ignore_errors := some true }

/-- Closed instantiation of `C8_context_derivation`: the dependency on `b`
runs `b` on the derived copy of the parent context with `b` pushed on the
stack. -/
theorem C8_context_derivation_witness :
    runDep okWorld C8w_cat 3 (.args "b") C8w_ctx ⟨[], []⟩ =
      runTask okWorld C8w_cat 3 (.task { commands := [.commandRun "ok"] })
        C8w_ctx.from_context { stack := ["b"], trace := [] } :=
  C8_context_derivation.2.2.1 okWorld C8w_cat 3 (.args "b") C8w_ctx ⟨[], []⟩
    (.task { commands := [.commandRun "ok"] }) (by decide) (by decide) (by decide)

theorem run_shell_command_no_output (W : World) (value : String) (base : Proc) (verbose : Bool)
    (h : W.stdoutLines (base.arg (trimEndMatches ")" (trimStartMatches "$(" value))) = []) :
    ∃ e, run_shell_command W value base verbose =
      (.error e, [.spawn .capture (base.arg (trimEndMatches ")" (trimStartMatches "$(" value)))]) := by
  unfold run_shell_command
  cases verbose with
  | true => exact ⟨.stdoutReadFailed, by simp [h]⟩
  | false => exact ⟨.stdoutOpenFailed, by simp⟩

theorem get_env_value_sites (t : TaskArgs) (W : World) (ctx : TaskContext) (v : String) :
    ∀ e ∈ (t.get_env_value W ctx v).2, e.site = .capture := by
  intro e he
  unfold TaskArgs.get_env_value run_shell_command at he
  split at he
  · split at he
    · dsimp only at he
      split at he <;> (simp at he; subst he; rfl)
    · dsimp only at he
      simp at he; subst he; rfl
  · simp at he

theorem loadEnvGo_sites (t : TaskArgs) (W : World) (ctx : TaskContext)
    (l : List (String × String)) :
    ∀ e ∈ (loadEnvGo t W ctx l).2, e.site = .capture := by
  induction l with
  | nil => intro e he; simp [loadEnvGo] at he
  | cons kv rest ih =>
    match kv with
    | (k, v) =>
      unfold loadEnvGo
      match hg : t.get_env_value W ctx v with
      | (.error e0, tr) =>
        intro e he
        exact get_env_value_sites t W ctx v e (by rw [hg]; exact he)
      | (.ok s0, tr) =>
        match hr : loadEnvGo t W ctx rest with
        | (.error e4, tr2) =>
          intro e he
          simp only [List.mem_append] at he
          rcases he with h | h
          · exact get_env_value_sites t W ctx v e (by rw [hg]; exact h)
          · exact ih e (by rw [hr]; exact h)
        | (.ok l2, tr2) =>
          intro e he
          simp only [List.mem_append] at he
          rcases he with h | h
          · exact get_env_value_sites t W ctx v e (by rw [hg]; exact h)
          · exact ih e (by rw [hr]; exact h)

theorem loadEnvGo_fail (t : TaskArgs) (W : World) (ctx : TaskContext)
    (l : List (String × String))
    (hfail : ∃ kv ∈ l, ∃ e, (t.get_env_value W ctx kv.2).1 = .error e) :
    ∃ e2, (loadEnvGo t W ctx l).1 = .error e2 := by
  induction l with
  | nil => simp at hfail
  | cons kv rest ih =>
    match kv with
    | (k, v) =>
      unfold loadEnvGo
      match hg : t.get_env_value W ctx v with
      | (.error e0, tr) => exact ⟨e0, rfl⟩
      | (.ok s0, tr) =>
        have hrest : ∃ kv2 ∈ rest, ∃ e, (t.get_env_value W ctx kv2.2).1 = .error e := by
          rcases hfail with ⟨kv2, hkv2, e, he⟩
          rcases List.mem_cons.mp hkv2 with rfl | hmem
          · rw [hg] at he; simp at he
          · exact ⟨kv2, hmem, e, he⟩
        rcases ih hrest with ⟨e2, he2⟩
        match hr : loadEnvGo t W ctx rest with
        | (.error e3, tr2) => exact ⟨e3, rfl⟩
        | (.ok l2, tr2) => rw [hr] at he2; simp at he2

/-- C10: a task whose declared environment holds a shell-substitution value
whose command prints nothing fails during environment resolution — the run
errors before any dependency, precondition or command is executed; the only
spawns in the added trace are capture-site spawns of the substitution
phase. -/
theorem C10_env_substitution_no_stdout (W : World) (cat : Catalog) (f : Nat) (t : TaskArgs)
    (ctx : TaskContext) (s : ExecState) (k v : String)
    (hcmds : t.commands ≠ [])
    (hval : t.validate_parallel_commands = .ok ())
    (hmem : (k, v) ∈ t.environment)
    (hsub : is_shell_command v = true)
    (hout : W.stdoutLines ((t.captureProc (applyOverrides t ctx)).arg
      (trimEndMatches ")" (trimStartMatches "$(" v))) = []) :
    ∃ (e : RunErr) (tr : List Event),
      runArgs W cat f t ctx s = (.error e, { s with trace := s.trace ++ tr }) ∧
      ∀ ev ∈ tr, ev.site = .capture := by
  have hgfail : ∃ e, (t.get_env_value W (applyOverrides t ctx) v).1 = .error e := by
    rcases run_shell_command_no_output W v (t.captureProc (applyOverrides t ctx))
      (t.verbose.getD default_verbose) hout with ⟨e, he⟩
    refine ⟨e, ?_⟩
    unfold TaskArgs.get_env_value
    rw [if_pos hsub, he]
  have hload : ∃ e2, (t.load_env W (applyOverrides t ctx)).1 = .error e2 :=
    loadEnvGo_fail t W (applyOverrides t ctx) t.environment ⟨(k, v), hmem, hgfail⟩
  rcases hload with ⟨e2, he2⟩
  refine ⟨e2, (t.load_env W (applyOverrides t ctx)).2, ?_,
    loadEnvGo_sites t W (applyOverrides t ctx) t.environment⟩
  have hie : t.commands.isEmpty = false := by simp [List.isEmpty_iff, hcmds]
  rw [runArgs, hie]
  simp only [Bool.false_eq_true, if_false]
  rw [hval]
  have henv : applyTaskEnv t W ctx =
      (.error e2, (t.load_env W (applyOverrides t ctx)).2) := by
    unfold applyTaskEnv
    match hl : t.load_env W (applyOverrides t ctx) with
    | (.error e3, tr) =>
      rw [hl] at he2
      simp only at he2
      dsimp only
      rw [hl]
      rw [he2] at hl ⊢
    | (.ok d, tr) => rw [hl] at he2; simp at he2
  rw [henv]

/-- A world in which every capture produces no stdout output. -/
def emptyOutWorld : World := { okWorld with stdoutLines := fun _ => [] }

/-- The C10 witness task: environment value `$(cmd)`. -/
def C10w_task : TaskArgs :=
  { commands := [.commandRun "ok"], environment := [("A", "$(cmd)")] }

/-- Closed instantiation of `C10_env_substitution_no_stdout`. -/
theorem C10_env_substitution_no_stdout_witness :
    ∃ (e : RunErr) (tr : List Event),
      runArgs emptyOutWorld [] 4 C10w_task rootContext ⟨[], []⟩ =
        (.error e, { ExecState.mk [] [] with trace := [] ++ tr }) ∧
      ∀ ev ∈ tr, ev.site = .capture :=
  C10_env_substitution_no_stdout emptyOutWorld [] 4 C10w_task rootContext ⟨[], []⟩ "A" "$(cmd)"
    (by decide) (by decide) (by decide) (by decide) (by decide)

/-- The list of worker results of a parallel task, one per command in
declaration order. -/
def parResults (W : World) (cat : Catalog) (f : Nat) (cmds : List CommandRunner)
    (ctx : TaskContext) (stack : List String) : List ((Bool × String) × List Event) :=
  cmds.enum.map (fun ic => parWorker W cat f ctx stack ic.1 ic.2)

theorem execParallel_eq (W : World) (cat : Catalog) (f : Nat) (cmds : List CommandRunner)
    (ctx : TaskContext) (arrival : List Nat) (s : ExecState) :
    execParallel W cat f cmds ctx arrival s =
      collectParallel ctx (parResults W cat f cmds ctx s.stack) arrival s := by
  rw [execParallel]
  rfl

theorem collectParallel_fst (ctx : TaskContext) (results : List ((Bool × String) × List Event))
    (arrival : List Nat) (s : ExecState) :
    (collectParallel ctx results arrival s).1 =
      if (parFailures ctx results arrival).isEmpty then .ok ()
      else .error (.parallelFailed ("Failed commands:\n" ++ String.intercalate "\n"
        (sortStrings (parFailures ctx results arrival)))) := by
  unfold collectParallel
  dsimp only
  split <;> rfl

theorem collectParallel_trace (ctx : TaskContext) (results : List ((Bool × String) × List Event))
    (arrival : List Nat) (s : ExecState) :
    (collectParallel ctx results arrival s).2.trace = s.trace ++ parTrace results arrival := by
  unfold collectParallel
  dsimp only
  split <;> rfl

theorem sortStrings_eq_of_perm (l1 l2 : List String) (h : l1.Perm l2) :
    sortStrings l1 = sortStrings l2 := by
  haveI : IsAntisymm String (fun a b => a ≤ b) := ⟨fun a b h1 h2 => le_antisymm h1 h2⟩
  exact List.eq_of_perm_of_sorted (r := fun a b => a ≤ b)
    (((List.perm_insertionSort _ l1).trans h).trans (List.perm_insertionSort _ l2).symm)
    (List.sorted_insertionSort _ l1)
    (List.sorted_insertionSort _ l2)

/-- C5: the parallel path. Every worker's complete trace embeds in the
final trace whatever the other workers did (no sibling cancellation, all
results awaited); the task fails exactly when at least one failure was
collected; the aggregate error joins the collected messages sorted
lexicographically by message text; the outcome does not depend on the
arrival order of worker results; and `TaskArgs::run` on a parallel task
with successful earlier phases is exactly this aggregation over one worker
per declared command. -/
theorem C5_parallel_aggregation :
    (∀ (W : World) (cat : Catalog) (f : Nat) (cmds : List CommandRunner) (ctx : TaskContext)
        (arrival : List Nat) (s : ExecState) (i : Nat) (c : CommandRunner),
      arrival.Perm (List.range cmds.length) → cmds[i]? = some c →
      ((parWorker W cat f ctx s.stack i c).2).Sublist
        (execParallel W cat f cmds ctx arrival s).2.trace) ∧
    (∀ (W : World) (cat : Catalog) (f : Nat) (cmds : List CommandRunner) (ctx : TaskContext)
        (arrival : List Nat) (s : ExecState),
      (execParallel W cat f cmds ctx arrival s).1 = .ok () ↔
        parFailures ctx (parResults W cat f cmds ctx s.stack) arrival = []) ∧
    (∀ (W : World) (cat : Catalog) (f : Nat) (cmds : List CommandRunner) (ctx : TaskContext)
        (arrival : List Nat) (s : ExecState),
      parFailures ctx (parResults W cat f cmds ctx s.stack) arrival ≠ [] →
      (execParallel W cat f cmds ctx arrival s).1 =
        .error (.parallelFailed ("Failed commands:\n" ++ String.intercalate "\n"
          (sortStrings (parFailures ctx (parResults W cat f cmds ctx s.stack) arrival)))) ∧
      List.Sorted (fun a b => a ≤ b)
        (sortStrings (parFailures ctx (parResults W cat f cmds ctx s.stack) arrival))) ∧
    (∀ (W : World) (cat : Catalog) (f : Nat) (cmds : List CommandRunner) (ctx : TaskContext)
        (arrival arrival2 : List Nat) (s : ExecState),
      arrival.Perm (List.range cmds.length) → arrival2.Perm (List.range cmds.length) →
      (execParallel W cat f cmds ctx arrival s).1 =
        (execParallel W cat f cmds ctx arrival2 s).1) ∧
    (∀ (W : World) (cat : Catalog) (f : Nat) (t : TaskArgs) (ctx ctx2 : TaskContext)
        (s s2 : ExecState) (trE tr2 : List Event),
      t.commands ≠ [] →
      t.validate_parallel_commands = .ok () →
      applyTaskEnv t W ctx = (.ok ctx2, trE) →
      runDeps W cat f t.depends_on ctx2 { s with trace := s.trace ++ trE } = (.ok (), s2) →
      runPreconds W t.preconditions ctx2 = (.ok (), tr2) →
      t.parallel.getD false = true →
      runArgs W cat f t ctx s =
        execParallel W cat f t.commands ctx2 (List.range t.commands.length)
          { s2 with trace := s2.trace ++ tr2 }) := by
  refine ⟨?_, ?_, ?_, ?_, ?_⟩
  · intro W cat f cmds ctx arrival s i c hperm hget
    rw [execParallel_eq]
    have hlt : i < cmds.length := by
      have := List.getElem?_eq_some.mp hget
      exact this.1
    have hiarr : i ∈ arrival := hperm.mem_iff.mpr (List.mem_range.mpr hlt)
    have hres : (parResults W cat f cmds ctx s.stack)[i]? =
        some (parWorker W cat f ctx s.stack i c) := by
      unfold parResults
      rw [List.getElem?_map, List.getElem?_enum, hget]
      rfl
    have hmemtr : (parWorker W cat f ctx s.stack i c).2 ∈
        arrival.filterMap (fun j => ((parResults W cat f cmds ctx s.stack)[j]?).map
          (fun r => r.2)) := by
      exact List.mem_filterMap.mpr ⟨i, hiarr, by rw [hres]; rfl⟩
    have hsub : ((parWorker W cat f ctx s.stack i c).2).Sublist
        (parTrace (parResults W cat f cmds ctx s.stack) arrival) :=
      List.sublist_flatten_of_mem hmemtr
    rw [collectParallel_trace]
    exact hsub.trans (List.sublist_append_right _ _)
  · intro W cat f cmds ctx arrival s
    rw [execParallel_eq, collectParallel_fst]
    by_cases h : (parFailures ctx (parResults W cat f cmds ctx s.stack) arrival).isEmpty = true
    · rw [if_pos h]
      simp [List.isEmpty_iff] at h
      simp [h]
    · rw [if_neg h]
      simp [List.isEmpty_iff] at h
      simp [h]
  · intro W cat f cmds ctx arrival s hne
    have h : (parFailures ctx (parResults W cat f cmds ctx s.stack) arrival).isEmpty = false := by
      simp [List.isEmpty_iff, hne]
    rw [execParallel_eq, collectParallel_fst, h]
    exact ⟨by simp, List.sorted_insertionSort _ _⟩
  · intro W cat f cmds ctx arrival arrival2 s h1 h2
    have hperm : arrival.Perm arrival2 := h1.trans h2.symm
    have hfperm : (parFailures ctx (parResults W cat f cmds ctx s.stack) arrival).Perm
        (parFailures ctx (parResults W cat f cmds ctx s.stack) arrival2) :=
      hperm.filterMap _
    rw [execParallel_eq, execParallel_eq, collectParallel_fst, collectParallel_fst]
    have hie : (parFailures ctx (parResults W cat f cmds ctx s.stack) arrival).isEmpty =
        (parFailures ctx (parResults W cat f cmds ctx s.stack) arrival2).isEmpty := by
      cases hh : (parFailures ctx (parResults W cat f cmds ctx s.stack) arrival2) with
      | nil =>
        have : parFailures ctx (parResults W cat f cmds ctx s.stack) arrival = [] :=
          (hh ▸ hfperm).eq_nil
        simp [this]
      | cons a l =>
        have : parFailures ctx (parResults W cat f cmds ctx s.stack) arrival ≠ [] := by
          intro hcon
          rw [hcon, hh] at hfperm
          exact absurd hfperm.symm.eq_nil (by simp)
        simp [List.isEmpty_iff, this, hh]
    rw [hie, sortStrings_eq_of_perm _ _ hfperm]
  · intro W cat f t ctx ctx2 s s2 trE tr2 hcmds hval henv hdeps hpre hpar
    have hie : t.commands.isEmpty = false := by simp [List.isEmpty_iff, hcmds]
    rw [runArgs, hie]
    simp only [Bool.false_eq_true, if_false]
    rw [hval, henv]
    dsimp only
    rw [hdeps]
    dsimp only
    rw [hpre]
    dsimp only
    rw [if_pos hpar]

/-- The C5 witness commands: two local runs, one failing. -/
def C5w_cmds : List CommandRunner :=
  [.localRun { command := "bad" }, .localRun { command := "ok" }]

/-- Closed instantiation of `C5_parallel_aggregation`: the failing worker's
trace embeds in the final trace even with reversed arrival order. -/
theorem C5_parallel_aggregation_witness :
    ((parWorker badWorld [] 2 rootContext [] 0 (.localRun { command := "bad" })).2).Sublist
      (execParallel badWorld [] 2 C5w_cmds rootContext [1, 0] ⟨[], []⟩).2.trace :=
  C5_parallel_aggregation.1 badWorld [] 2 C5w_cmds rootContext [1, 0] ⟨[], []⟩ 0
    (.localRun { command := "bad" }) (by decide) (by decide)

theorem run_shell_command_ne_fuel (W : World) (v : String) (b : Proc) (vb : Bool) :
    (run_shell_command W v b vb).1 ≠ .error .outOfFuel := by
  unfold run_shell_command
  dsimp only
  split
  · split <;> simp
  · simp

theorem get_env_value_ne_fuel (t : TaskArgs) (W : World) (ctx : TaskContext) (v : String) :
    (t.get_env_value W ctx v).1 ≠ .error .outOfFuel := by
  unfold TaskArgs.get_env_value
  split
  · exact run_shell_command_ne_fuel W v (t.captureProc ctx) (t.verbose.getD default_verbose)
  · simp

theorem loadEnvGo_ne_fuel (t : TaskArgs) (W : World) (ctx : TaskContext)
    (l : List (String × String)) : (loadEnvGo t W ctx l).1 ≠ .error .outOfFuel := by
  induction l with
  | nil => simp [loadEnvGo]
  | cons kv rest ih =>
    match kv with
    | (k, v) =>
      unfold loadEnvGo
      match hg : t.get_env_value W ctx v with
      | (.error e0, tr) =>
        have := get_env_value_ne_fuel t W ctx v
        rw [hg] at this
        simpa using this
      | (.ok s0, tr) =>
        match hr : loadEnvGo t W ctx rest with
        | (.error e4, tr2) => rw [hr] at ih; simpa using ih
        | (.ok l2, tr2) => simp

theorem loadEnvFileGo_ne_fuel (W : World) (l : List String) :
    loadEnvFileGo W l ≠ .error .outOfFuel := by
  induction l with
  | nil => simp [loadEnvFileGo]
  | cons fp rest ih =>
    unfold loadEnvFileGo
    match W.readFile fp with
    | none => simp
    | some ls =>
      match hr : loadEnvFileGo W rest with
      | .error e => rw [hr] at ih; simpa using ih
      | .ok l2 => simp

theorem applyTaskEnv_ne_fuel (t : TaskArgs) (W : World) (ctx : TaskContext) :
    (applyTaskEnv t W ctx).1 ≠ .error .outOfFuel := by
  unfold applyTaskEnv
  dsimp only
  match hg : t.load_env W (applyOverrides t ctx) with
  | (.error e0, tr) =>
    have h2 := loadEnvGo_ne_fuel t W (applyOverrides t ctx) t.environment
    rw [show loadEnvGo t W (applyOverrides t ctx) t.environment =
      (Except.error e0, tr) from hg] at h2
    simpa using h2
  | (.ok d, tr) =>
    match hr : t.load_env_file W with
    | .error e =>
      have h2 := loadEnvFileGo_ne_fuel W t.env_file
      rw [show loadEnvFileGo W t.env_file = Except.error e from hr] at h2
      simpa using h2
    | .ok a => simp

theorem precond_ne_fuel (p : Precondition) (W : World) (ctx : TaskContext) :
    (p.execute W ctx).1 ≠ .error .outOfFuel := by
  unfold Precondition.execute
  split
  · simp
  · dsimp only
    split <;> simp

theorem runPreconds_ne_fuel (W : World) (ps : List Precondition) (ctx : TaskContext) :
    (runPreconds W ps ctx).1 ≠ .error .outOfFuel := by
  induction ps with
  | nil => simp [runPreconds]
  | cons p ps ih =>
    unfold runPreconds
    match hp : p.execute W ctx with
    | (.error e, tr) =>
      have := precond_ne_fuel p W ctx
      rw [hp] at this
      simpa using this
    | (.ok u, tr) =>
      match hr : runPreconds W ps ctx with
      | (r, tr2) => rw [hr] at ih; simpa using ih

theorem localRun_ne_fuel (lr : LocalRun) (W : World) (ctx : TaskContext) :
    (lr.execute W ctx).1 ≠ .error .outOfFuel := by
  unfold LocalRun.execute
  split
  · simp
  · match lr.testRun W ctx with
    | (.error e, tr) => simp
    | (.ok u, tr) =>
      dsimp only
      split <;> simp

theorem containerRun_ne_fuel (cr : ContainerRun) (W : World) (ctx : TaskContext) :
    (cr.execute W ctx).1 ≠ .error .outOfFuel := by
  unfold ContainerRun.execute
  match W.whichRuntime with
  | none => simp
  | some rt =>
    dsimp only
    split <;> simp

theorem get_template_command_value_ne_fuel (ctx : TaskContext) (v : String) :
    get_template_command_value ctx v ≠ .error .outOfFuel := by
  unfold get_template_command_value
  dsimp only
  split
  · match lookupEnv ctx.env_vars
        (trimStartMatches "env." (trimChars (trimEndMatches "\x7d\x7d"
          (trimStartMatches "$\x7b\x7b" v)))) with
    | none => simp
    | some s0 => simp
  · simp

theorem get_tag_ne_fuel (cb : ContainerBuild) (W : World) (ctx : TaskContext) (v : String) :
    (cb.get_tag W ctx v).1 ≠ .error .outOfFuel := by
  unfold ContainerBuild.get_tag
  split
  · exact run_shell_command_ne_fuel W v ctx.shellEff.proc (cb.verboseEff ctx)
  · split
    · exact get_template_command_value_ne_fuel ctx v
    · simp

theorem get_label_ne_fuel (cb : ContainerBuild) (W : World) (ctx : TaskContext) (v : String) :
    (cb.get_label W ctx v).1 ≠ .error .outOfFuel := by
  unfold ContainerBuild.get_label
  match splitOnceEq v with
  | none => simp
  | some (k, w) =>
    dsimp only
    split
    · simp
    · split
      · simp
      · split
        · simp
        · split
          · match hr : run_shell_command W w ctx.shellEff.proc (cb.verboseEff ctx) with
            | (.ok s0, tr) => simp
            | (.error e, tr) =>
              have := run_shell_command_ne_fuel W w ctx.shellEff.proc (cb.verboseEff ctx)
              rw [hr] at this
              simpa using this
          · split
            · match hv : get_template_command_value ctx w with
              | .ok s0 => simp
              | .error e =>
                have h2 := get_template_command_value_ne_fuel ctx w
                rw [hv] at h2
                simpa using h2
            · simp

theorem labelArgs_ne_fuel (cb : ContainerBuild) (W : World) (ctx : TaskContext)
    (l : List String) : (cb.labelArgs W ctx l).1 ≠ .error .outOfFuel := by
  induction l with
  | nil => simp [ContainerBuild.labelArgs]
  | cons a rest ih =>
    unfold ContainerBuild.labelArgs
    match hg : cb.get_label W ctx (trimChars a) with
    | (.error e, tr) =>
      have := get_label_ne_fuel cb W ctx (trimChars a)
      rw [hg] at this
      simpa using this
    | (.ok s0, tr) =>
      match hr : cb.labelArgs W ctx rest with
      | (.error e, tr2) => rw [hr] at ih; simpa using ih
      | (.ok xs, tr2) => simp

theorem tagArgs_ne_fuel (cb : ContainerBuild) (W : World) (ctx : TaskContext)
    (l : List String) : (cb.tagArgs W ctx l).1 ≠ .error .outOfFuel := by
  induction l with
  | nil => simp [ContainerBuild.tagArgs]
  | cons a rest ih =>
    unfold ContainerBuild.tagArgs
    match hg : cb.get_tag W ctx (trimChars a) with
    | (.error e, tr) =>
      have := get_tag_ne_fuel cb W ctx (trimChars a)
      rw [hg] at this
      simpa using this
    | (.ok s0, tr) =>
      match hr : cb.tagArgs W ctx rest with
      | (.error e, tr2) => rw [hr] at ih; simpa using ih
      | (.ok xs, tr2) => simp

theorem fileArgs_ne_fuel (cb : ContainerBuild) (W : World) :
    cb.fileArgs W ≠ .error .outOfFuel := by
  unfold ContainerBuild.fileArgs
  split
  · simp
  · dsimp only
    split
    · simp
    · split <;> simp

theorem assemble_ne_fuel (cb : ContainerBuild) (W : World) (ctx : TaskContext) (rt : String) :
    (cb.assemble W ctx rt).1 ≠ .error .outOfFuel := by
  unfold ContainerBuild.assemble
  dsimp only
  match hl : cb.labelArgs W ctx (cb.container_build.labels.getD []) with
  | (.error e, tr) =>
    have := labelArgs_ne_fuel cb W ctx (cb.container_build.labels.getD [])
    rw [hl] at this
    simpa using this
  | (.ok largs, tr) =>
    have htags : (match cb.container_build.tags with
        | some ts => cb.tagArgs W ctx ts
        | none => (.ok ["-t", cb.container_build.image_name ++ ":latest"], [])).1 ≠
        .error RunErr.outOfFuel := by
      match cb.container_build.tags with
      | some ts => exact tagArgs_ne_fuel cb W ctx ts
      | none => simp
    match ht : (match cb.container_build.tags with
        | some ts => cb.tagArgs W ctx ts
        | none => (.ok ["-t", cb.container_build.image_name ++ ":latest"], [])) with
    | (.error e, tr2) => rw [ht] at htags; simpa using htags
    | (.ok targs, tr2) =>
      match hf : cb.fileArgs W with
      | .error e =>
        have h2 := fileArgs_ne_fuel cb W
        rw [hf] at h2
        simpa using h2
      | .ok fargs => simp

theorem containerBuild_ne_fuel (cb : ContainerBuild) (W : World) (ctx : TaskContext) :
    (cb.execute W ctx).1 ≠ .error .outOfFuel := by
  unfold ContainerBuild.execute
  split
  · simp
  · match W.whichRuntime with
    | none => simp
    | some rt =>
      dsimp only
      match ha : cb.assemble W ctx rt with
      | (.error e, tr) =>
        have := assemble_ne_fuel cb W ctx rt
        rw [ha] at this
        simpa using this
      | (.ok p, tr) =>
        split
        · simp_all
        · split <;> simp

theorem execute_command_ne_fuel (W : World) (ctx : TaskContext) (cmd : String) :
    (execute_command W ctx cmd).1 ≠ .error .outOfFuel := by
  unfold execute_command
  split
  · simp
  · dsimp only
    split <;> simp

theorem validateParallelGo_ne_fuel (l : List CommandRunner) :
    validateParallelGo l ≠ .error .outOfFuel := by
  induction l with
  | nil => simp [validateParallelGo]
  | cons c rest ih =>
    match c with
    | .localRun lr =>
      unfold validateParallelGo
      split
      · exact ih
      · simp
    | .containerRun cr => simp [validateParallelGo]
    | .containerBuild cb => simp [validateParallelGo]
    | .taskRun trun => simp [validateParallelGo]
    | .commandRun cmd => simp [validateParallelGo]

theorem validate_ne_fuel (t : TaskArgs) :
    t.validate_parallel_commands ≠ .error .outOfFuel := by
  unfold TaskArgs.validate_parallel_commands
  split
  · simp
  · exact validateParallelGo_ne_fuel t.commands

/-- The task names of the catalog, as a finite set. -/
def catalogNames (cat : Catalog) : Finset String :=
  (cat.map Prod.fst).toFinset

/-- The number of catalog task names not yet on the execution stack: the
measure bounding the recursion depth of the interpreter. -/
def remaining (cat : Catalog) (stack : List String) : Nat :=
  (catalogNames cat \ stack.toFinset).card

theorem lookup_name_mem (cat : Catalog) (n : String) (t : Task)
    (h : lookupTask cat n = some t) : n ∈ catalogNames cat := by
  unfold lookupTask at h
  rcases Option.map_eq_some'.mp h with ⟨p, hp, _⟩
  have hmem : p ∈ cat := List.mem_of_find?_eq_some hp
  have hpred := List.find?_some hp
  have hfst : p.1 = n := by simpa using hpred
  unfold catalogNames
  rw [List.mem_toFinset]
  exact hfst ▸ List.mem_map_of_mem Prod.fst hmem

theorem remaining_mono (cat : Catalog) (s1 s2 : List String) (h : ∀ x ∈ s1, x ∈ s2) :
    remaining cat s2 ≤ remaining cat s1 := by
  apply Finset.card_le_card
  apply Finset.sdiff_subset_sdiff (le_refl _)
  intro x hx
  rw [List.mem_toFinset] at hx ⊢
  exact h x hx

theorem remaining_cons_lt (cat : Catalog) (n : String) (stack : List String)
    (hn : n ∈ catalogNames cat) (hns : n ∉ stack) :
    remaining cat (n :: stack) < remaining cat stack := by
  apply Finset.card_lt_card
  rw [Finset.ssubset_def]
  constructor
  · apply Finset.sdiff_subset_sdiff (le_refl _)
    intro x hx
    rw [List.mem_toFinset] at hx ⊢
    exact List.mem_cons_of_mem _ hx
  · intro hcon
    have hmem : n ∈ catalogNames cat \ stack.toFinset := by
      rw [Finset.mem_sdiff, List.mem_toFinset]
      exact ⟨hn, hns⟩
    have := hcon hmem
    rw [Finset.mem_sdiff, List.mem_toFinset] at this
    exact this.2 (List.mem_cons_self n stack)

/-- Fuel adequacy: with fuel exceeding the number of catalog names not yet
on the stack, the interpreter never runs out of fuel — the recursion depth
of the engine is bounded by the catalog size, so every run terminates. -/
theorem fuelAdequate (f : Nat) :
    (∀ (W : World) (cat : Catalog) (t : Task) (ctx : TaskContext) (s : ExecState),
      remaining cat s.stack < f → (runTask W cat f t ctx s).1 ≠ .error .outOfFuel) ∧
    (∀ (W : World) (cat : Catalog) (t : TaskArgs) (ctx : TaskContext) (s : ExecState),
      remaining cat s.stack ≤ f → (runArgs W cat f t ctx s).1 ≠ .error .outOfFuel) ∧
    (∀ (W : World) (cat : Catalog) (ds : List TaskDependency) (ctx : TaskContext) (s : ExecState),
      remaining cat s.stack ≤ f → (runDeps W cat f ds ctx s).1 ≠ .error .outOfFuel) ∧
    (∀ (W : World) (cat : Catalog) (d : TaskDependency) (ctx : TaskContext) (s : ExecState),
      remaining cat s.stack ≤ f → (runDep W cat f d ctx s).1 ≠ .error .outOfFuel) ∧
    (∀ (W : World) (cat : Catalog) (cs : List CommandRunner) (ctx : TaskContext) (s : ExecState),
      remaining cat s.stack ≤ f → (runCmds W cat f cs ctx s).1 ≠ .error .outOfFuel) ∧
    (∀ (W : World) (cat : Catalog) (c : CommandRunner) (ctx : TaskContext) (s : ExecState),
      remaining cat s.stack ≤ f → (runCmd W cat f c ctx s).1 ≠ .error .outOfFuel) := by
  induction f using Nat.strong_induction_on with
  | _ f ih =>
    have hTask : ∀ (W : World) (cat : Catalog) (t : Task) (ctx : TaskContext) (s : ExecState),
        remaining cat s.stack < f → (runTask W cat f t ctx s).1 ≠ .error .outOfFuel := by
      intro W cat t ctx s hrem
      obtain ⟨g, rfl⟩ : ∃ g, f = g + 1 := ⟨f - 1, by omega⟩
      cases t with
      | str cmd =>
        rw [runTask]
        split
        · simp
        · exact (ih g (by omega)).2.1 W cat _ ctx s (by omega)
      | task t2 =>
        rw [runTask]
        exact (ih g (by omega)).2.1 W cat t2 ctx s (by omega)
    have hDep : ∀ (W : World) (cat : Catalog) (d : TaskDependency) (ctx : TaskContext)
        (s : ExecState),
        remaining cat s.stack ≤ f → (runDep W cat f d ctx s).1 ≠ .error .outOfFuel := by
      intro W cat d ctx s hrem
      rw [runDep]
      split
      · simp
      · match hlook : lookupTask cat d.name with
        | none => simp
        | some t =>
          dsimp only
          split
          · simp
          · rename_i hmem
            exact hTask W cat t _ _
              (lt_of_lt_of_le
                (remaining_cons_lt cat d.name s.stack (lookup_name_mem cat d.name t hlook) hmem)
                hrem)
    have hCmd : ∀ (W : World) (cat : Catalog) (c : CommandRunner) (ctx : TaskContext)
        (s : ExecState),
        remaining cat s.stack ≤ f → (runCmd W cat f c ctx s).1 ≠ .error .outOfFuel := by
      intro W cat c ctx s hrem
      match c with
      | .localRun lr => rw [runCmd]; exact localRun_ne_fuel lr W ctx
      | .containerRun cr => rw [runCmd]; exact containerRun_ne_fuel cr W ctx
      | .containerBuild cb => rw [runCmd]; exact containerBuild_ne_fuel cb W ctx
      | .commandRun cmd => rw [runCmd]; exact execute_command_ne_fuel W ctx cmd
      | .taskRun trun =>
        rw [runCmd]
        split
        · simp
        · match hlook : lookupTask cat trun.task with
          | none => simp
          | some t =>
            dsimp only
            split
            · simp
            · rename_i hmem
              exact hTask W cat t _ _
                (lt_of_lt_of_le
                  (remaining_cons_lt cat trun.task s.stack
                    (lookup_name_mem cat trun.task t hlook) hmem)
                  hrem)
    have hDeps : ∀ (W : World) (cat : Catalog) (ds : List TaskDependency) (ctx : TaskContext)
        (s : ExecState),
        remaining cat s.stack ≤ f → (runDeps W cat f ds ctx s).1 ≠ .error .outOfFuel := by
      intro W cat ds
      induction ds with
      | nil => intro ctx s hrem; rw [runDeps]; simp
      | cons d ds ihd =>
        intro ctx s hrem
        rw [runDeps]
        match hd : runDep W cat f d ctx s with
        | (.error e, s2) =>
          have h2 := hDep W cat d ctx s hrem
          rw [hd] at h2
          simpa using h2
        | (.ok u, s2) =>
          apply ihd
          have hsub : ∀ x ∈ s.stack, x ∈ s2.stack := by
            intro x hx
            have := (stackMono f).2.2.2.1 W cat d ctx s x hx
            rw [hd] at this
            exact this
          exact le_trans (remaining_mono cat s.stack s2.stack hsub) hrem
    have hCmds : ∀ (W : World) (cat : Catalog) (cs : List CommandRunner) (ctx : TaskContext)
        (s : ExecState),
        remaining cat s.stack ≤ f → (runCmds W cat f cs ctx s).1 ≠ .error .outOfFuel := by
      intro W cat cs
      induction cs with
      | nil => intro ctx s hrem; rw [runCmds]; simp
      | cons c cs ihc =>
        intro ctx s hrem
        rw [runCmds]
        match hc : runCmd W cat f c ctx s with
        | (.error e, s2) =>
          have h2 := hCmd W cat c ctx s hrem
          rw [hc] at h2
          simpa using h2
        | (.ok u, s2) =>
          apply ihc
          have hsub : ∀ x ∈ s.stack, x ∈ s2.stack := by
            intro x hx
            have := (stackMono f).2.2.2.2.2 W cat c ctx s x hx
            rw [hc] at this
            exact this
          exact le_trans (remaining_mono cat s.stack s2.stack hsub) hrem
    have hArgs : ∀ (W : World) (cat : Catalog) (t : TaskArgs) (ctx : TaskContext)
        (s : ExecState),
        remaining cat s.stack ≤ f → (runArgs W cat f t ctx s).1 ≠ .error .outOfFuel := by
      intro W cat t ctx s hrem
      rw [runArgs]
      split
      · simp
      · match hv : t.validate_parallel_commands with
        | .error e =>
          have h2 := validate_ne_fuel t
          rw [hv] at h2
          simpa using h2
        | .ok u =>
          dsimp only
          match henv : applyTaskEnv t W ctx with
          | (.error e, tr) =>
            have h2 := applyTaskEnv_ne_fuel t W ctx
            rw [henv] at h2
            simpa using h2
          | (.ok ctx2, tr) =>
            dsimp only
            match hd : runDeps W cat f t.depends_on ctx2
                { stack := s.stack, trace := s.trace ++ tr } with
            | (.error e, s2) =>
              have h2 := hDeps W cat t.depends_on ctx2
                { stack := s.stack, trace := s.trace ++ tr } hrem
              rw [hd] at h2
              simpa using h2
            | (.ok u2, s2) =>
              have hrem2 : remaining cat s2.stack ≤ f := by
                have hsub : ∀ x ∈ s.stack, x ∈ s2.stack := by
                  intro x hx
                  have := (stackMono f).2.2.1 W cat t.depends_on ctx2
                    { stack := s.stack, trace := s.trace ++ tr } x hx
                  rw [hd] at this
                  exact this
                exact le_trans (remaining_mono cat s.stack s2.stack hsub) hrem
              match hp : runPreconds W t.preconditions ctx2 with
              | (.error e, tr2) =>
                have h2 := runPreconds_ne_fuel W t.preconditions ctx2
                rw [hp] at h2
                simpa using h2
              | (.ok u3, tr2) =>
                dsimp only
                split
                · rw [execParallel_eq, collectParallel_fst]
                  split <;> simp
                · exact hCmds W cat t.commands ctx2 { s2 with trace := s2.trace ++ tr2 } hrem2
    exact ⟨hTask, hArgs, hDeps, hDep, hCmds, hCmd⟩

/-- C1: cycle safety. With fuel exceeding the number of catalog names not
yet on the execution stack, `Task::run` never exhausts its fuel — the
nested-run depth is bounded because every nested run first inserts a fresh
catalog name into the stack, so execution always terminates, cyclic
reference graphs included. And a dependency or nested `TaskRun` whose
target name is already on the stack fails immediately with
`CircularDependency`, leaving the state untouched — no nested run is
started. -/
theorem C1_cycle_safety :
    (∀ (W : World) (cat : Catalog) (f : Nat) (t : Task) (ctx : TaskContext) (s : ExecState),
      remaining cat s.stack < f → (runTask W cat f t ctx s).1 ≠ .error .outOfFuel) ∧
    (∀ (W : World) (cat : Catalog) (f : Nat) (d : TaskDependency) (ctx : TaskContext)
        (s : ExecState) (t : Task),
      d.name ≠ "" → lookupTask cat d.name = some t → d.name ∈ s.stack →
      runDep W cat f d ctx s = (.error (.circularDependency d.name), s)) ∧
    (∀ (W : World) (cat : Catalog) (f : Nat) (trun : TaskRun) (ctx : TaskContext)
        (s : ExecState) (t : Task),
      trun.task ≠ "" → lookupTask cat trun.task = some t → trun.task ∈ s.stack →
      runCmd W cat f (.taskRun trun) ctx s = (.error (.circularDependency trun.task), s)) := by
  refine ⟨fun W cat f => (fuelAdequate f).1 W cat, ?_, ?_⟩
  · intro W cat f d ctx s t hname hlook hmem
    rw [runDep, if_neg hname, hlook]
    dsimp only
    rw [if_pos hmem]
  · intro W cat f trun ctx s t hname hlook hmem
    rw [runCmd, if_neg hname, hlook]
    dsimp only
    rw [if_pos hmem]

/-- The C1 witness catalog: tasks `a` and `b` depending on each other. -/
def C1w_cat : Catalog :=
  [("a", .task { commands := [.commandRun "ok"], depends_on := [.args "b"] }),
   ("b", .task { commands := [.commandRun "ok"], depends_on := [.args "a"] })]

/-- Closed instantiation of `C1_cycle_safety` on the two-task cycle:
running `a` with fuel 3 cannot exhaust fuel, and the dependency on `a`
raised while `a` is already in flight fails immediately as a circular
dependency with nothing run. -/
theorem C1_cycle_safety_witness :
    (runTask okWorld C1w_cat 3
      (.task { commands := [.commandRun "ok"], depends_on := [.args "b"] })
      rootContext ⟨["a"], []⟩).1 ≠ .error .outOfFuel ∧
    runDep okWorld C1w_cat 1 (.args "a") rootContext ⟨["b", "a"], []⟩ =
      (.error (.circularDependency "a"), ⟨["b", "a"], []⟩) :=
  ⟨C1_cycle_safety.1 okWorld C1w_cat 3
      (.task { commands := [.commandRun "ok"], depends_on := [.args "b"] })
      rootContext ⟨["a"], []⟩ (by decide),
    C1_cycle_safety.2.1 okWorld C1w_cat 1 (.args "a") rootContext ⟨["b", "a"], []⟩
      (.task { commands := [.commandRun "ok"], depends_on := [.args "b"] })
      (by decide) (by decide) (by decide)⟩

/-- The C7 catalog: `a` depends on `b` and then fails its own command. -/
def C7w_cat : Catalog :=
  [("a", .task { commands := [.commandRun "bad"], depends_on := [.args "b"] }),
   ("b", .task { commands := [.commandRun "ok"] })]

/-- C7: `CliEntry::run_task` clears the execution stack only on the success
path; the early error return skips the clear. Concretely: a first top-level
invocation of `a` fails on its command and leaves `["b", "a"]` on the stack
instead of the empty set, and a second identical invocation in the same
process observes that residue, failing with a circular dependency on `b`
where a fresh invocation fails with the command error. -/
theorem C7_stack_clear_skipped_on_error :
    (CliEntry.run_task badWorld C7w_cat 5 [] "a").1 = .error (.commandFailed "bad") ∧
    (CliEntry.run_task badWorld C7w_cat 5 [] "a").2.1 = ["b", "a"] ∧
    (CliEntry.run_task badWorld C7w_cat 5 ["b", "a"] "a").1 =
      .error (.circularDependency "b") := by
  refine ⟨?_, ?_, ?_⟩ <;>
    simp +decide [CliEntry.run_task, C7w_cat, lookupTask, runTask, runArgs, runDeps, runDep,
      runCmds, runCmd, TaskArgs.validate_parallel_commands, applyTaskEnv, applyOverrides,
      TaskArgs.load_env, loadEnvGo, TaskArgs.load_env_file, loadEnvFileGo, runPreconds,
      execute_command, liftEv, badWorld, exitWorld, rootContext, TaskContext.from_context,
      TaskContext.shellEff, TaskContext.ignoreErrorsEff, default_shell, default_ignore_errors,
      Shell.proc, Shell.cmd, Shell.argsList, ShellArgs.shell_args, TaskContext.extend_env_vars]

end Mk
